import Mathlib

/-!
Refinement condition of the Kelvin-Helmholtz problem generator.

A shallow embedding of `RefinementCondition` (src/pgen/kh.cpp, lines 221-428) and
theorems about it.

Conventions of the embedding.

* The type `Real` of the source is embedded as `ℚ`: arithmetic is exact, there is no rounding,
  no infinity and no NaN.
* C `int` values are embedded as `Int`; no index computation of the routine is near
  the 32-bit range for a mesh that fits in memory.
* C arrays of fixed size (`Real ux[3]`, `Real A[3][3]`) are lists; `a[i]` is
  `List.getD a i 0` and `a[i] = v` is `List.set a i v`.
* A read of the field array outside its extents, and a read of a local that was never
  assigned, are undefined behaviour in the source; the embedding returns `none`.
* `std::pow`, `std::sqrt` and the variable indices `IDN`, `IVX`, `IVY` are not defined
  in the source file; they are taken as parameters (structure `External`).
-/

namespace KH

/-! ## Things used by the routine and defined outside the source file -/

/-- Library functions and header constants the routine uses: `std::pow`, `std::sqrt`
and the variable indices `IDN`, `IVX`, `IVY` of athena.hpp. -/
structure External where
  pow : ℚ → ℚ → ℚ
  sqrt : ℚ → ℚ
  IDN : Int
  IVX : Int
  IVY : Int

/-- Modelled from the spec: the squaring helper `SQR` of athena.hpp, which is not among
the sources; the spec writes the velocity magnitude as `sqrt(vx² + vy²)`. -/
def SQR (x : ℚ) : ℚ := x * x

/-- The C library function `fmax` on finite values: the larger of the two arguments. -/
def fmax (x y : ℚ) : ℚ := if x < y then y else x

/-- The largest finite double, `DBL_MAX = (2^53 - 1) * 2^971`. -/
def DBL_MAX : ℚ := (2 ^ 53 - 1) * 2 ^ 971

/-- The identity of the `Kokkos::Max<Real>` reducer, `-DBL_MAX`: the value every
reduction accumulator starts from. -/
def maxIdentity : ℚ := -DBL_MAX

/-! ## Data model -/

/-- A five-dimensional device array `w0(m, n, k, j, i)` with its extents. -/
structure DvceArray5D where
  nmb : Int
  nvar : Int
  nk : Int
  nj : Int
  ni : Int
  val : Int → Int → Int → Int → Int → ℚ

/-- The read `w0(m, n, k, j, i)`: `none` when an index is outside the extents. -/
def DvceArray5D.read (w : DvceArray5D) (m n k j i : Int) : Option ℚ :=
  if 0 ≤ m ∧ m < w.nmb ∧ 0 ≤ n ∧ n < w.nvar ∧ 0 ≤ k ∧ k < w.nk ∧
      0 ≤ j ∧ j < w.nj ∧ 0 ≤ i ∧ i < w.ni
  then some (w.val m n k j i) else none

/-- The index ranges `pm->mb_indcs` of a mesh block. -/
structure RegionIndcs where
  is : Int
  ie : Int
  nx1 : Int
  js : Int
  je : Int
  nx2 : Int
  ks : Int
  ke : Int
  nx3 : Int

/-- The configuration read from `pm->pmr`: `GetStencilOrder()`, `GetAlphaRefine()`,
`GetAlphaCoarsen()` and `GetVariable()`. -/
structure MeshRefinement where
  stencil_ : Int
  alpha_refine_ : ℚ
  alpha_coarsen_ : ℚ
  variable_ : Int

/-- What the routine reads from its `MeshBlockPack *pmbp` argument. `phydro` and `pmhd`
hold the primitive array `w0` of the module when the module is active (the pointer is
not null); `mbs` is `pm->gids_eachrank[global_variable::my_rank]`. -/
structure MeshBlockPack where
  mb_indcs : RegionIndcs
  nmb_thispack : Int
  mbs : Int
  pmr : MeshRefinement
  phydro : Option DvceArray5D
  pmhd : Option DvceArray5D

/-- The flag array `refine_flag_.d_view`, indexed by global block id. -/
abbrev RefineFlags := Int → Int

/-! ## The transform matrices (lines 298-302 and 366-372) -/

/-- The 3x3 Legendre coefficient matrix `A` of the order-3 branch. -/
def A3 : List (List ℚ) :=
  [[3/8,      1/4,      3/8],
   [-3/4,     0,        3/4],
   [3/4,      -3/2,     3/4]]

/-- The 5x5 matrix `A` of the order-5 branch, entry for entry as in the source. -/
def A5 : List (List ℚ) :=
  [[275/115,    25/288,    67/192,   25/288,    275/1152],
   [-55/96,     -5/48,     0,        5/48,      55/96],
   [1525/2016,  -475/504,  125/336,  -475/504,  1525/2016],
   [-25/48,     25/24,     0,        -25/24,    25/48],
   [125/336,    -125/84,   125/56,   -125/84,   125/336]]

/-- The entry `A[row][col]`. -/
def entry (A : List (List ℚ)) (row col : Nat) : ℚ := (A.getD row []).getD col 0

/-! ## The per-cell computation -/

/-- The loops `cx[ii] = 0.0`, `cy[ii] = 0.0` followed by the double loop
`cx[row] += A[row][col] * ux[col]; cy[row] += A[row][col] * uy[col]`
(lines 294-310 and 363-379), for the array length `n`. Returns `(cx, cy)`. -/
def matVecLoop (n : Nat) (A : List (List ℚ)) (ux uy : List ℚ) : List ℚ × List ℚ :=
  (List.range n).foldl
    (fun c row =>
      (List.range n).foldl
        (fun c col =>
          (c.1.set row (c.1.getD row 0 + entry A row col * ux.getD col 0),
           c.2.set row (c.2.getD row 0 + entry A row col * uy.getD col 0)))
        c)
    (List.replicate n 0, List.replicate n 0)

/-- The loop `kappa3x += cx[jj] * cx[jj] / (2.0 * jj + 1)` and the same for `kappa3y`
(lines 313-318 and 381-386), for the array length `n`. Returns `(kappa3x, kappa3y)`. -/
def kappaLoop (n : Nat) (cx cy : List ℚ) : ℚ × ℚ :=
  (List.range n).foldl
    (fun kap jj =>
      (kap.1 + cx.getD jj 0 * cx.getD jj 0 / (2 * (jj : ℚ) + 1),
       kap.2 + cy.getD jj 0 * cy.getD jj 0 / (2 * (jj : ℚ) + 1)))
    (0, 0)

/-- Lines 297-323: from the stencils `ux`, `uy` of the order-3 branch to the pair
`(kappa3_hat, kappa3)` the cell hands to the reduction. -/
def indicator3 (ux uy : List ℚ) : ℚ × ℚ :=
  let c := matVecLoop 3 A3 ux uy
  let cx := c.1
  let cy := c.2
  let kap := kappaLoop 3 cx cy
  let kappa3x := kap.1
  let kappa3y := kap.2
  let kappa3x_hat := cx.getD 2 0 * cx.getD 2 0 / 5
  let kappa3y_hat := cy.getD 2 0 * cy.getD 2 0 / 5
  let kappa3 := fmax kappa3x kappa3y
  let kappa3_hat := fmax kappa3x_hat kappa3y_hat
  (kappa3_hat, kappa3)

/-- Lines 366-391: from the stencils `ux`, `uy` of the order-5 branch to the pair
`(kappa3_hat, kappa3)` the cell hands to the reduction. -/
def indicator5 (ux uy : List ℚ) : ℚ × ℚ :=
  let c := matVecLoop 5 A5 ux uy
  let cx := c.1
  let cy := c.2
  let kap := kappaLoop 5 cx cy
  let kappa3x := kap.1
  let kappa3y := kap.2
  let kappa3x_hat := cx.getD 4 0 * cx.getD 4 0 / 9
  let kappa3y_hat := cy.getD 4 0 * cy.getD 4 0 / 9
  let kappa3 := fmax kappa3x kappa3y
  let kappa3_hat := fmax kappa3x_hat kappa3y_hat
  (kappa3_hat, kappa3)

/-- The expression `std::sqrt(SQR(w0(m, IVX, k, j, i)) + SQR(w0(m, IVY, k, j, i)))`
that lines 280-286 and 346-356 evaluate at the cell and at its neighbours. -/
def speed (ext : External) (w0 : DvceArray5D) (m k j i : Int) : Option ℚ := do
  let vx ← w0.read m ext.IVX k j i
  let vy ← w0.read m ext.IVY k j i
  pure (ext.sqrt (SQR vx + SQR vy))

/-- Lines 269-292: the stencils `(ux, uy)` of the order-3 branch at the cell `(k, j, i)`.
The five locals are declared without a value and assigned only under `variable == 1`
or `variable == 2`. -/
def sample3 (ext : External) (variable_ : Int) (w0 : DvceArray5D) (m k j i : Int) :
    Option (List ℚ × List ℚ) :=
  let u : Option (ℚ × ℚ × ℚ × ℚ × ℚ) := none
  let u := if variable_ = 1 then do
      let u1 ← w0.read m ext.IDN k j i
      let u0x ← w0.read m ext.IDN k j (i - 1)
      let u2x ← w0.read m ext.IDN k j (i + 1)
      let u0y ← w0.read m ext.IDN k (j - 1) i
      let u2y ← w0.read m ext.IDN k (j + 1) i
      pure (u1, u0x, u2x, u0y, u2y)
    else u
  let u := if variable_ = 2 then do
      let u1 ← speed ext w0 m k j i
      let u0x ← speed ext w0 m k j (i - 1)
      let u2x ← speed ext w0 m k j (i + 1)
      let u0y ← speed ext w0 m k (j - 1) i
      let u2y ← speed ext w0 m k (j + 1) i
      pure (u1, u0x, u2x, u0y, u2y)
    else u
  u.map (fun v => ([v.2.1, v.1, v.2.2.1], [v.2.2.2.1, v.1, v.2.2.2.2]))

/-- Lines 331-361: the stencils `(ux, uy)` of the order-5 branch at the cell `(k, j, i)`. -/
def sample5 (ext : External) (variable_ : Int) (w0 : DvceArray5D) (m k j i : Int) :
    Option (List ℚ × List ℚ) :=
  let u : Option (ℚ × ℚ × ℚ × ℚ × ℚ × ℚ × ℚ × ℚ × ℚ) := none
  let u := if variable_ = 1 then do
      let u2 ← w0.read m ext.IDN k j i
      let u0x ← w0.read m ext.IDN k j (i - 2)
      let u1x ← w0.read m ext.IDN k j (i - 1)
      let u3x ← w0.read m ext.IDN k j (i + 1)
      let u4x ← w0.read m ext.IDN k j (i + 2)
      let u0y ← w0.read m ext.IDN k (j - 2) i
      let u1y ← w0.read m ext.IDN k (j - 1) i
      let u3y ← w0.read m ext.IDN k (j + 1) i
      let u4y ← w0.read m ext.IDN k (j + 2) i
      pure (u2, u0x, u1x, u3x, u4x, u0y, u1y, u3y, u4y)
    else u
  let u := if variable_ = 2 then do
      let u2 ← speed ext w0 m k j i
      let u0x ← speed ext w0 m k j (i - 2)
      let u1x ← speed ext w0 m k j (i - 1)
      let u3x ← speed ext w0 m k j (i + 1)
      let u4x ← speed ext w0 m k j (i + 2)
      let u0y ← speed ext w0 m k (j - 2) i
      let u1y ← speed ext w0 m k (j - 1) i
      let u3y ← speed ext w0 m k (j + 1) i
      let u4y ← speed ext w0 m k (j + 2) i
      pure (u2, u0x, u1x, u3x, u4x, u0y, u1y, u3y, u4y)
    else u
  u.map (fun v =>
    ([v.2.1, v.2.2.1, v.1, v.2.2.2.1, v.2.2.2.2.1],
     [v.2.2.2.2.2.1, v.2.2.2.2.2.2.1, v.1, v.2.2.2.2.2.2.2.1, v.2.2.2.2.2.2.2.2]))

/-- Lines 261-265: the cell `(k, j, i)` of the flattened index `idx`; the divisions are
C integer divisions. -/
def decodeIdx (nji nx1 is js ks idx : Int) : Int × Int × Int :=
  let k := Int.tdiv idx nji
  let j := Int.tdiv (idx - k * nji) nx1
  let i := (idx - k * nji - j * nx1) + is
  let j := j + js
  let k := k + ks
  (k, j, i)

/-- Lines 260-395: the body of the reduction lambda for the block `m` and the flattened
index `idx`, on the accumulators `acc = (max_cN, max_sum_cN)`. -/
def cellKernel (ext : External) (pmbp : MeshBlockPack) (w0 : DvceArray5D) (m idx : Int)
    (acc : ℚ × ℚ) : Option (ℚ × ℚ) :=
  let indcs := pmbp.mb_indcs
  let nji := indcs.nx2 * indcs.nx1
  let kji := decodeIdx nji indcs.nx1 indcs.is indcs.js indcs.ks idx
  let k := kji.1
  let j := kji.2.1
  let i := kji.2.2
  do
    let acc ←
      if pmbp.pmr.stencil_ = 3 then do
        let u ← sample3 ext pmbp.pmr.variable_ w0 m k j i
        let kappa := indicator3 u.1 u.2
        pure (fmax kappa.1 acc.1, fmax kappa.2 acc.2)
      else pure acc
    let acc ←
      if pmbp.pmr.stencil_ = 5 then do
        let u ← sample5 ext pmbp.pmr.variable_ w0 m k j i
        let kappa := indicator5 u.1 u.2
        pure (fmax kappa.1 acc.1, fmax kappa.2 acc.2)
      else pure acc
    pure acc

/-- Lines 256-397: `Kokkos::parallel_reduce` over `idx` in `[0, nkji)` with the two
`Kokkos::Max<Real>` reducers, as the sequential fold of the lambda from the identity
of the reducers. The result replaces the initial `0.0` of `cN` and `sum_cN`. Returns
`(cN, sum_cN)`. -/
def blockReduce (ext : External) (pmbp : MeshBlockPack) (w0 : DvceArray5D) (m : Int) :
    Option (ℚ × ℚ) :=
  let indcs := pmbp.mb_indcs
  let nkji := indcs.nx3 * indcs.nx2 * indcs.nx1
  (List.range nkji.toNat).foldlM
    (fun acc (idx : Nat) => cellKernel ext pmbp w0 m (idx : Int) acc)
    (maxIdentity, maxIdentity)

/-! ## The decision (lines 401-425) -/

/-- The two tests of lines 406-411 (and 419-424) for the mode count `N`. -/
def thresholdTests (ext : External) (N alpha_refine_ alpha_coarsen_ : ℚ) (mbs m : Int)
    (cN sum_cN : ℚ) (refine_flag_ : RefineFlags) : RefineFlags :=
  let threshold_refine := ext.pow N (2 * alpha_refine_)
  let threshold_coarsen := ext.pow N (2 * alpha_coarsen_)
  let refine_flag_ :=
    if cN * threshold_refine > sum_cN then Function.update refine_flag_ (m + mbs) 1
    else refine_flag_
  let refine_flag_ :=
    if cN * threshold_coarsen < sum_cN then Function.update refine_flag_ (m + mbs) (-1)
    else refine_flag_
  refine_flag_

/-- Lines 401-425: the decision for the block `m` from its reduced pair `(cN, sum_cN)`. -/
def decideFlags (ext : External) (stencil_ : Int) (alpha_refine_ alpha_coarsen_ : ℚ)
    (mbs m : Int) (cN sum_cN : ℚ) (refine_flag_ : RefineFlags) : RefineFlags :=
  let refine_flag_ :=
    if stencil_ = 3 then
      thresholdTests ext 2 alpha_refine_ alpha_coarsen_ mbs m cN sum_cN refine_flag_
    else refine_flag_
  let refine_flag_ :=
    if stencil_ = 5 then
      thresholdTests ext 4 alpha_refine_ alpha_coarsen_ mbs m cN sum_cN refine_flag_
    else refine_flag_
  refine_flag_

/-- Lines 255-426: the body of the outer lambda for the block `m`. -/
def blockBody (ext : External) (pmbp : MeshBlockPack) (w0 : DvceArray5D)
    (refine_flag_ : RefineFlags) (m : Int) : Option RefineFlags := do
  let r ← blockReduce ext pmbp w0 m
  pure (decideFlags ext pmbp.pmr.stencil_ pmbp.pmr.alpha_refine_ pmbp.pmr.alpha_coarsen_
    pmbp.mbs m r.1 r.2 refine_flag_)

/-- Line 247: `w0` is the array of the hydro module when it is active, else that of the
MHD module. -/
def selectW0 (pmbp : MeshBlockPack) : Option DvceArray5D :=
  match pmbp.phydro with
  | some w => some w
  | none => pmbp.pmhd

/-- Lines 221-428: `RefinementCondition`. The blocks `m = 0 .. nmb - 1` of the pack are
visited in turn; the result is the flag array after the call, `none` when the call has
undefined behaviour. -/
def RefinementCondition (ext : External) (pmbp : MeshBlockPack)
    (refine_flag_ : RefineFlags) : Option RefineFlags :=
  match selectW0 pmbp with
  | none => some refine_flag_
  | some w0 =>
    (List.range pmbp.nmb_thispack.toNat).foldlM
      (fun flags (m : Nat) => blockBody ext pmbp w0 flags (m : Int))
      refine_flag_

/-! ## Reference definitions, in the words of the specification -/

/-- Reference (spec 4.2): the coefficient of mode `n`, row `n` of the product `A * u`. -/
def specCoeff (order : Nat) (A : List (List ℚ)) (u : List ℚ) (n : Nat) : ℚ :=
  Finset.sum (Finset.range order) (fun col => entry A n col * u.getD col 0)

/-- Reference (spec 4.3): `topModeEnergy_dir = coeff[order-1]² / (2·(order-1)+1)`. -/
def specTopModeEnergyDir (order : Nat) (coeff : Nat → ℚ) : ℚ :=
  coeff (order - 1) ^ 2 / (2 * (((order - 1 : Nat) : ℚ)) + 1)

/-- Reference (spec 4.3): `totalWeightedEnergy_dir = Σ_{n=0}^{order-1} coeff[n]² / (2n+1)`. -/
def specTotalWeightedEnergyDir (order : Nat) (coeff : Nat → ℚ) : ℚ :=
  Finset.sum (Finset.range order) (fun n => coeff n ^ 2 / (2 * (n : ℚ) + 1))

/-- Reference (spec 4.3): both quantities, each the larger of its two directions. -/
def specIndicator (order : Nat) (A : List (List ℚ)) (ux uy : List ℚ) : ℚ × ℚ :=
  (max (specTopModeEnergyDir order (specCoeff order A ux))
       (specTopModeEnergyDir order (specCoeff order A uy)),
   max (specTotalWeightedEnergyDir order (specCoeff order A ux))
       (specTotalWeightedEnergyDir order (specCoeff order A uy)))

/-- The Legendre polynomials `P_0 .. P_4`. -/
def legendreP (n : Nat) (x : ℚ) : ℚ :=
  match n with
  | 0 => 1
  | 1 => x
  | 2 => (3 * x ^ 2 - 1) / 2
  | 3 => (5 * x ^ 3 - 3 * x) / 2
  | 4 => (35 * x ^ 4 - 30 * x ^ 2 + 3) / 8
  | _ => 0

/-- The evenly spaced nodes of the 3-point stencil on `[-1, 1]`. -/
def nodes3 : List ℚ := [-2/3, 0, 2/3]

/-- The evenly spaced nodes of the 5-point stencil on `[-1, 1]`. -/
def nodes5 : List ℚ := [-4/5, -2/5, 0, 2/5, 4/5]

/-- The samples `u_i = Σ_n a_n P_n(x_i)` of a Legendre expansion at the given nodes. -/
def legendreSamples (nodes a : List ℚ) : List ℚ :=
  nodes.map (fun x => Finset.sum (Finset.range a.length) (fun n => a.getD n 0 * legendreP n x))

/-! ## Scenario predicates and concrete data -/

/-- Every interior cell of the block `m` has the order-3 stencils `(ux, uy)`: for each
flattened index of the reduction the order-3 sampling at the decoded cell returns them. -/
def BlockStencils3 (ext : External) (pmbp : MeshBlockPack) (w0 : DvceArray5D) (m : Int)
    (ux uy : List ℚ) : Prop :=
  ∀ idx : Nat,
    idx < (pmbp.mb_indcs.nx3 * pmbp.mb_indcs.nx2 * pmbp.mb_indcs.nx1).toNat →
    sample3 ext pmbp.pmr.variable_ w0 m
      (decodeIdx (pmbp.mb_indcs.nx2 * pmbp.mb_indcs.nx1) pmbp.mb_indcs.nx1
        pmbp.mb_indcs.is pmbp.mb_indcs.js pmbp.mb_indcs.ks idx).1
      (decodeIdx (pmbp.mb_indcs.nx2 * pmbp.mb_indcs.nx1) pmbp.mb_indcs.nx1
        pmbp.mb_indcs.is pmbp.mb_indcs.js pmbp.mb_indcs.ks idx).2.1
      (decodeIdx (pmbp.mb_indcs.nx2 * pmbp.mb_indcs.nx1) pmbp.mb_indcs.nx1
        pmbp.mb_indcs.is pmbp.mb_indcs.js pmbp.mb_indcs.ks idx).2.2
      = some (ux, uy)

/-- Every interior cell of the block `m` has the order-5 stencils `(ux, uy)`. -/
def BlockStencils5 (ext : External) (pmbp : MeshBlockPack) (w0 : DvceArray5D) (m : Int)
    (ux uy : List ℚ) : Prop :=
  ∀ idx : Nat,
    idx < (pmbp.mb_indcs.nx3 * pmbp.mb_indcs.nx2 * pmbp.mb_indcs.nx1).toNat →
    sample5 ext pmbp.pmr.variable_ w0 m
      (decodeIdx (pmbp.mb_indcs.nx2 * pmbp.mb_indcs.nx1) pmbp.mb_indcs.nx1
        pmbp.mb_indcs.is pmbp.mb_indcs.js pmbp.mb_indcs.ks idx).1
      (decodeIdx (pmbp.mb_indcs.nx2 * pmbp.mb_indcs.nx1) pmbp.mb_indcs.nx1
        pmbp.mb_indcs.is pmbp.mb_indcs.js pmbp.mb_indcs.ks idx).2.1
      (decodeIdx (pmbp.mb_indcs.nx2 * pmbp.mb_indcs.nx1) pmbp.mb_indcs.nx1
        pmbp.mb_indcs.is pmbp.mb_indcs.js pmbp.mb_indcs.ks idx).2.2
      = some (ux, uy)

/-- An executable stand-in for `std::pow`, exact at integer exponents: `b ^ e` for an
integer `e`. -/
def powAtIntegers (b e : ℚ) : ℚ := b ^ e.floor

/-- An executable stand-in for `std::sqrt`, exact at squares of rationals. -/
def sqrtAtSquares (x : ℚ) : ℚ := (Nat.sqrt x.num.toNat : ℚ) / (Nat.sqrt x.den : ℚ)

/-- The parameters used in the concrete scenarios: the stand-ins above and the variable
indices `IDN = 0`, `IVX = 1`, `IVY = 2`. -/
def extQ : External :=
  { pow := powAtIntegers, sqrt := sqrtAtSquares, IDN := 0, IVX := 1, IVY := 2 }

/-- A field array of one block with five variables on 1 x 5 x 5 cells, the density at
`(j, i)` being `rho j i` and the other variables zero. -/
def fieldOfDensity (rho : Int → Int → ℚ) : DvceArray5D :=
  { nmb := 1, nvar := 5, nk := 1, nj := 5, ni := 5,
    val := fun _ n _ j i => if n = 0 then rho j i else 0 }

/-- A pack of one block with the single interior cell `(k, j, i) = (0, 2, 2)`, two halo
cells on each side in x and y, the hydro module active on `w`, the density selected. -/
def singleCellPack (stencil_ : Int) (alpha_refine_ alpha_coarsen_ : ℚ) (w : DvceArray5D) :
    MeshBlockPack :=
  { mb_indcs := { is := 2, ie := 2, nx1 := 1, js := 2, je := 2, nx2 := 1,
                  ks := 0, ke := 0, nx3 := 1 },
    nmb_thispack := 1,
    mbs := 0,
    pmr := { stencil_ := stencil_, alpha_refine_ := alpha_refine_,
             alpha_coarsen_ := alpha_coarsen_, variable_ := 1 },
    phydro := some w,
    pmhd := none }

/-- The density that is 1 at the interior cell `(2, 2)` and 0 elsewhere: the x- and the
y-stencil of the interior cell are both the spike `[0, 1, 0]`. -/
def spikeDensity (j i : Int) : ℚ := if j = 2 ∧ i = 2 then 1 else 0

/-! ## The reduction as a map and a fold -/

/-- Lines 326-327 and 393-394: the update of the accumulators `(max_cN, max_sum_cN)`
with the pair `c = (kappa3_hat, kappa3)` of one cell. -/
def accumulate (acc c : ℚ × ℚ) : ℚ × ℚ := (fmax c.1 acc.1, fmax c.2 acc.2)

/-- The reduction of lines 259-397 on the list of the per-cell pairs, one worker visiting
the cells in the order of the list, from the identity of the reducers. -/
def reducePairs (cells : List (ℚ × ℚ)) : ℚ × ℚ :=
  cells.foldl accumulate (maxIdentity, maxIdentity)

/-- The `join` of `Kokkos::Max<Real>`, `if (src > dest) dest = src`, on both reduced
values. -/
def joinMax (dest src : ℚ × ℚ) : ℚ × ℚ :=
  (if src.1 > dest.1 then src.1 else dest.1, if src.2 > dest.2 then src.2 else dest.2)

/-- The same reduction with the cells split among workers: every worker reduces its chunk
from the identity and the partial results are joined. -/
def reduceChunks (chunks : List (List (ℚ × ℚ))) : ℚ × ℚ :=
  (chunks.map reducePairs).foldl joinMax (maxIdentity, maxIdentity)

/-- Lines 261-323 and 330-391: the pair `(kappa3_hat, kappa3)` that the cell of the
flattened index `idx` hands to the reduction, for a stencil order 3 or 5. -/
def cellPair (ext : External) (pmbp : MeshBlockPack) (w0 : DvceArray5D) (m idx : Int) :
    Option (ℚ × ℚ) :=
  let indcs := pmbp.mb_indcs
  let kji := decodeIdx (indcs.nx2 * indcs.nx1) indcs.nx1 indcs.is indcs.js indcs.ks idx
  if pmbp.pmr.stencil_ = 3 then
    (sample3 ext pmbp.pmr.variable_ w0 m kji.1 kji.2.1 kji.2.2).map
      (fun u => indicator3 u.1 u.2)
  else if pmbp.pmr.stencil_ = 5 then
    (sample5 ext pmbp.pmr.variable_ w0 m kji.1 kji.2.1 kji.2.2).map
      (fun u => indicator5 u.1 u.2)
  else none

/-! ## The two tests of the decision -/

/-- The test of lines 406 and 419, `cN * threshold_refine > sum_cN`, for the mode
count `N`. -/
def refineCondition (ext : External) (N alpha_refine_ cN sum_cN : ℚ) : Prop :=
  cN * ext.pow N (2 * alpha_refine_) > sum_cN

/-- The test of lines 409 and 422, `cN * threshold_coarsen < sum_cN`, for the mode
count `N`. -/
def coarsenCondition (ext : External) (N alpha_coarsen_ cN sum_cN : ℚ) : Prop :=
  cN * ext.pow N (2 * alpha_coarsen_) < sum_cN

instance (ext : External) (N alpha_refine_ cN sum_cN : ℚ) :
    Decidable (refineCondition ext N alpha_refine_ cN sum_cN) := by
  unfold refineCondition
  infer_instance

instance (ext : External) (N alpha_coarsen_ cN sum_cN : ℚ) :
    Decidable (coarsenCondition ext N alpha_coarsen_ cN sum_cN) := by
  unfold coarsenCondition
  infer_instance

/-! ## Preconditions on the mesh and the field array -/

/-- The standing assumptions of the data model: every direction has at least one
interior cell, the cell counts are those of the interior ranges, and the field array
holds every block of the pack, the k-range of the interior and the variables `IDN`,
`IVX`, `IVY`. -/
def InteriorInArray (ext : External) (pmbp : MeshBlockPack) (w0 : DvceArray5D) : Prop :=
  1 ≤ pmbp.mb_indcs.nx1 ∧ 1 ≤ pmbp.mb_indcs.nx2 ∧ 1 ≤ pmbp.mb_indcs.nx3
  ∧ pmbp.mb_indcs.nx1 = pmbp.mb_indcs.ie - pmbp.mb_indcs.is + 1
  ∧ pmbp.mb_indcs.nx2 = pmbp.mb_indcs.je - pmbp.mb_indcs.js + 1
  ∧ pmbp.mb_indcs.nx3 = pmbp.mb_indcs.ke - pmbp.mb_indcs.ks + 1
  ∧ 0 ≤ pmbp.mb_indcs.ks ∧ pmbp.mb_indcs.ke < w0.nk
  ∧ pmbp.nmb_thispack ≤ w0.nmb
  ∧ (0 ≤ ext.IDN ∧ ext.IDN < w0.nvar)
  ∧ (0 ≤ ext.IVX ∧ ext.IVX < w0.nvar)
  ∧ (0 ≤ ext.IVY ∧ ext.IVY < w0.nvar)

/-- The halo precondition for the halo width `h`: the array has `h` cells beyond the
interior range on both sides in the x- and in the y-direction. -/
def HaloWidth (h : Int) (pmbp : MeshBlockPack) (w0 : DvceArray5D) : Prop :=
  0 ≤ pmbp.mb_indcs.is - h ∧ pmbp.mb_indcs.ie + h < w0.ni
  ∧ 0 ≤ pmbp.mb_indcs.js - h ∧ pmbp.mb_indcs.je + h < w0.nj

instance (ext : External) (pmbp : MeshBlockPack) (w0 : DvceArray5D) :
    Decidable (InteriorInArray ext pmbp w0) := by
  unfold InteriorInArray
  infer_instance

instance (h : Int) (pmbp : MeshBlockPack) (w0 : DvceArray5D) :
    Decidable (HaloWidth h pmbp w0) := by
  unfold HaloWidth
  infer_instance

/-! ## Scaling of the field -/

/-- The field array with every value multiplied by `s`; the extents are unchanged. -/
def scaleField (s : ℚ) (w : DvceArray5D) : DvceArray5D :=
  { w with val := fun m n k j i => s * w.val m n k j i }

/-- The pack whose hydro and MHD arrays are multiplied by `s`; the mesh and the
configuration are unchanged. -/
def scalePack (s : ℚ) (pmbp : MeshBlockPack) : MeshBlockPack :=
  { pmbp with phydro := pmbp.phydro.map (scaleField s), pmhd := pmbp.pmhd.map (scaleField s) }

/-- A pair of energies multiplied by `s^2`. -/
def scalePair (s : ℚ) (r : ℚ × ℚ) : ℚ × ℚ := (s ^ 2 * r.1, s ^ 2 * r.2)

/-! # Theorems -/

/-! ## The decision rule -/

/-- C1. For stencil order 3 (N = 2) and order 5 (N = 4), whatever the reduced pair
`(cN, sum_cN)` and the prior flags, the slot `m + mbs` after the decision holds -1 when
`cN * thresholdCoarsen < sum_cN`, otherwise 1 when `cN * thresholdRefine > sum_cN`,
otherwise its prior value; coarsen overwrites refine when both tests hold. -/
theorem decideFlags_slot (ext : External) (alpha_refine_ alpha_coarsen_ : ℚ) (mbs m : Int)
    (cN sum_cN : ℚ) (flags : RefineFlags) :
    decideFlags ext 3 alpha_refine_ alpha_coarsen_ mbs m cN sum_cN flags (m + mbs)
        = (if cN * ext.pow 2 (2 * alpha_coarsen_) < sum_cN then -1
           else if cN * ext.pow 2 (2 * alpha_refine_) > sum_cN then 1
           else flags (m + mbs))
    ∧ decideFlags ext 5 alpha_refine_ alpha_coarsen_ mbs m cN sum_cN flags (m + mbs)
        = (if cN * ext.pow 4 (2 * alpha_coarsen_) < sum_cN then -1
           else if cN * ext.pow 4 (2 * alpha_refine_) > sum_cN then 1
           else flags (m + mbs)) := by
  constructor <;>
  · simp only [decideFlags, thresholdTests]
    split_ifs <;> simp_all [Function.update]

/-! ## The per-cell indicator -/

theorem fmax_eq_max (x y : ℚ) : fmax x y = max x y := by
  unfold fmax
  split_ifs with h
  · exact (max_eq_right (le_of_lt h)).symm
  · exact (max_eq_left (not_lt.mp h)).symm

theorem matVecLoop3 (a b c d e f : ℚ) :
    matVecLoop 3 A3 [a, b, c] [d, e, f]
      = ([3/8 * a + 1/4 * b + 3/8 * c, -3/4 * a + 3/4 * c, 3/4 * a - 3/2 * b + 3/4 * c],
         [3/8 * d + 1/4 * e + 3/8 * f, -3/4 * d + 3/4 * f, 3/4 * d - 3/2 * e + 3/4 * f]) := by
  simp [matVecLoop, A3, entry, List.range_succ, List.replicate]
  constructor <;> ring

theorem matVecLoop5 (a b c d e f g h i j : ℚ) :
    matVecLoop 5 A5 [a, b, c, d, e] [f, g, h, i, j]
      = ([275/115 * a + 25/288 * b + 67/192 * c + 25/288 * d + 275/1152 * e,
          -55/96 * a - 5/48 * b + 5/48 * d + 55/96 * e,
          1525/2016 * a - 475/504 * b + 125/336 * c - 475/504 * d + 1525/2016 * e,
          -25/48 * a + 25/24 * b - 25/24 * d + 25/48 * e,
          125/336 * a - 125/84 * b + 125/56 * c - 125/84 * d + 125/336 * e],
         [275/115 * f + 25/288 * g + 67/192 * h + 25/288 * i + 275/1152 * j,
          -55/96 * f - 5/48 * g + 5/48 * i + 55/96 * j,
          1525/2016 * f - 475/504 * g + 125/336 * h - 475/504 * i + 1525/2016 * j,
          -25/48 * f + 25/24 * g - 25/24 * i + 25/48 * j,
          125/336 * f - 125/84 * g + 125/56 * h - 125/84 * i + 125/336 * j]) := by
  simp [matVecLoop, A5, entry, List.range_succ, List.replicate]
  refine ⟨⟨?_, ?_, ?_, ?_⟩, ⟨?_, ?_, ?_, ?_⟩⟩ <;> ring

theorem kappaLoop3 (c0 c1 c2 d0 d1 d2 : ℚ) :
    kappaLoop 3 [c0, c1, c2] [d0, d1, d2]
      = (c0 * c0 + c1 * c1 / 3 + c2 * c2 / 5, d0 * d0 + d1 * d1 / 3 + d2 * d2 / 5) := by
  simp [kappaLoop, List.range_succ]
  constructor <;> ring

theorem kappaLoop5 (c0 c1 c2 c3 c4 d0 d1 d2 d3 d4 : ℚ) :
    kappaLoop 5 [c0, c1, c2, c3, c4] [d0, d1, d2, d3, d4]
      = (c0 * c0 + c1 * c1 / 3 + c2 * c2 / 5 + c3 * c3 / 7 + c4 * c4 / 9,
         d0 * d0 + d1 * d1 / 3 + d2 * d2 / 5 + d3 * d3 / 7 + d4 * d4 / 9) := by
  simp [kappaLoop, List.range_succ]
  constructor <;> ring

/-- C2. For order 3 and order 5 and all stencil values, the pair the cell hands to the
reduction is the reference pair of the specification: the larger over the two directions
of `c[order-1]² / (2(order-1)+1)`, and the larger over the two directions of
`Σ_n c[n]² / (2n+1)`, with `c = A * u` for the matrix of the code. The divisors 5 and 9
are the weights of the last term of the sum. -/
theorem indicator_eq_specIndicator (a b c d e f p q r s t v w x y z : ℚ) :
    indicator3 [a, b, c] [d, e, f] = specIndicator 3 A3 [a, b, c] [d, e, f]
    ∧ indicator5 [p, q, r, s, t] [v, w, x, y, z]
        = specIndicator 5 A5 [p, q, r, s, t] [v, w, x, y, z] := by
  constructor
  · simp only [indicator3, matVecLoop3, kappaLoop3, fmax_eq_max, specIndicator,
      specTopModeEnergyDir, specTotalWeightedEnergyDir, specCoeff]
    simp [Finset.sum_range_succ, A3, entry]
    constructor <;> congr 1 <;> ring
  · simp only [indicator5, matVecLoop5, kappaLoop5, fmax_eq_max, specIndicator,
      specTopModeEnergyDir, specTotalWeightedEnergyDir, specCoeff]
    simp [Finset.sum_range_succ, A5, entry]
    constructor <;> congr 1 <;> ring

/-! ## The transform and the Legendre basis -/

theorem legendreSamples3 (a0 a1 a2 : ℚ) :
    legendreSamples nodes3 [a0, a1, a2]
      = [a0 - 2/3 * a1 + 1/6 * a2, a0 - 1/2 * a2, a0 + 2/3 * a1 + 1/6 * a2] := by
  simp [legendreSamples, nodes3, legendreP, Finset.sum_range_succ]
  refine ⟨?_, ?_, ?_⟩ <;> ring

theorem legendreSamples5 (a0 a1 a2 a3 a4 : ℚ) :
    legendreSamples nodes5 [a0, a1, a2, a3, a4]
      = [a0 - 4/5 * a1 + 23/50 * a2 - 2/25 * a3 - 233/1000 * a4,
         a0 - 2/5 * a1 - 13/50 * a2 + 11/25 * a3 - 113/1000 * a4,
         a0 - 1/2 * a2 + 3/8 * a4,
         a0 + 2/5 * a1 - 13/50 * a2 - 11/25 * a3 - 113/1000 * a4,
         a0 + 4/5 * a1 + 23/50 * a2 + 2/25 * a3 - 233/1000 * a4] := by
  simp [legendreSamples, nodes5, legendreP, Finset.sum_range_succ]
  refine ⟨?_, ?_, ?_, ?_, ?_⟩ <;> ring

/-- C4. The order-3 transform of the samples of `a0 P_0 + a1 P_1 + a2 P_2` at the nodes
-2/3, 0, 2/3 is `(a0, a1, a2)`, in the x- and in the y-slot of the loop. -/
theorem matVecLoop3_legendre (a0 a1 a2 b0 b1 b2 : ℚ) :
    matVecLoop 3 A3 (legendreSamples nodes3 [a0, a1, a2])
        (legendreSamples nodes3 [b0, b1, b2])
      = ([a0, a1, a2], [b0, b1, b2]) := by
  rw [legendreSamples3, legendreSamples3, matVecLoop3]
  simp only [Prod.mk.injEq, List.cons.injEq, and_true]
  refine ⟨⟨?_, ?_, ?_⟩, ⟨?_, ?_, ?_⟩⟩ <;> ring

/-- The order-5 transform of the samples of a Legendre expansion at the nodes
-4/5, -2/5, 0, 2/5, 4/5 returns the modes 1 to 4 exactly; mode 0 is off by
`(275/115 - 275/1152)` times the first sample, the entry `A[0][0]` being `275/115`
where its mirror entry `A[0][4]` is `275/1152`. -/
theorem matVecLoop5_legendre (a0 a1 a2 a3 a4 : ℚ) :
    (matVecLoop 5 A5 (legendreSamples nodes5 [a0, a1, a2, a3, a4])
        (legendreSamples nodes5 [a0, a1, a2, a3, a4])).1
      = [a0 + (275/115 - 275/1152) *
              (a0 - 4/5 * a1 + 23/50 * a2 - 2/25 * a3 - 233/1000 * a4),
         a1, a2, a3, a4] := by
  rw [legendreSamples5, matVecLoop5]
  simp only [List.cons.injEq, and_true]
  refine ⟨?_, ?_, ?_, ?_, ?_⟩ <;> ring

/-- C3, at the samples of `P_0`. The order-5 transform of the samples of `P_0` (the
coefficient vector `(1, 0, 0, 0, 0)`) is `(83531/26496, 0, 0, 0, 0)`, not the unit
vector `(1, 0, 0, 0, 0)`. -/
theorem order5_transform_of_P0_samples :
    (matVecLoop 5 A5 (legendreSamples nodes5 [1, 0, 0, 0, 0])
        (legendreSamples nodes5 [1, 0, 0, 0, 0])).1 = [83531/26496, 0, 0, 0, 0]
    ∧ (matVecLoop 5 A5 (legendreSamples nodes5 [1, 0, 0, 0, 0])
        (legendreSamples nodes5 [1, 0, 0, 0, 0])).1 ≠ [1, 0, 0, 0, 0] := by
  rw [legendreSamples5, matVecLoop5]
  norm_num

/-! ## Constant stencils and the spike -/

theorem matVecLoop3_const (c d : ℚ) :
    matVecLoop 3 A3 [c, c, c] [d, d, d] = ([c, 0, 0], [d, 0, 0]) := by
  rw [matVecLoop3]
  simp only [Prod.mk.injEq, List.cons.injEq, and_true]
  refine ⟨⟨?_, ?_, ?_⟩, ⟨?_, ?_, ?_⟩⟩ <;> ring

theorem matVecLoop5_const (c d : ℚ) :
    matVecLoop 5 A5 [c, c, c, c, c] [d, d, d, d, d]
      = ([83531/26496 * c, 0, 0, 0, 0], [83531/26496 * d, 0, 0, 0, 0]) := by
  rw [matVecLoop5]
  simp only [Prod.mk.injEq, List.cons.injEq, and_true]
  refine ⟨⟨?_, ?_, ?_, ?_, ?_⟩, ⟨?_, ?_, ?_, ?_, ?_⟩⟩ <;> ring

theorem fmax_self (x : ℚ) : fmax x x = x := by
  simp [fmax]

theorem indicator3_const (c : ℚ) : indicator3 [c, c, c] [c, c, c] = (0, c * c) := by
  simp only [indicator3, matVecLoop3_const, kappaLoop3, fmax_self]
  norm_num

theorem indicator5_const (c : ℚ) :
    indicator5 [c, c, c, c, c] [c, c, c, c, c]
      = (0, 83531/26496 * c * (83531/26496 * c)) := by
  simp only [indicator5, matVecLoop5_const, kappaLoop5, fmax_self]
  norm_num

/-- C5, at order 5 and c = 1. The order-5 transform of the constant stencil
`(1, 1, 1, 1, 1)` has mode 0 equal to `83531/26496`, not 1; the modes above 0 are zero. -/
theorem order5_transform_of_constant_one :
    (matVecLoop 5 A5 [1, 1, 1, 1, 1] [1, 1, 1, 1, 1]).1 = [83531/26496, 0, 0, 0, 0]
    ∧ (matVecLoop 5 A5 [1, 1, 1, 1, 1] [1, 1, 1, 1, 1]).1.getD 0 0 ≠ 1 := by
  rw [matVecLoop5_const]
  norm_num

/-- C7. For the stencil `[0, 1, 0]` the order-3 transform gives `[1/4, 0, -3/2]`; the
sum of weighted energies of the direction (`kappa3x`, `kappa3y`) is 0.5125; the pair
(top-mode energy, total weighted energy) of a cell with that stencil in one direction
and the zero stencil in the other, or with that stencil in both, is (0.45, 0.5125). -/
theorem spike3 :
    matVecLoop 3 A3 [0, 1, 0] [0, 1, 0] = ([1/4, 0, -3/2], [1/4, 0, -3/2])
    ∧ kappaLoop 3 [1/4, 0, -3/2] [1/4, 0, -3/2] = (0.5125, 0.5125)
    ∧ indicator3 [0, 1, 0] [0, 0, 0] = (0.45, 0.5125)
    ∧ indicator3 [0, 0, 0] [0, 1, 0] = (0.45, 0.5125)
    ∧ indicator3 [0, 1, 0] [0, 1, 0] = (0.45, 0.5125) := by
  refine ⟨?_, ?_, ?_, ?_, ?_⟩
  · rw [matVecLoop3]; norm_num
  · rw [kappaLoop3]; norm_num
  · simp only [indicator3, matVecLoop3, kappaLoop3, fmax_eq_max]; norm_num
  · simp only [indicator3, matVecLoop3, kappaLoop3, fmax_eq_max]; norm_num
  · simp only [indicator3, matVecLoop3, kappaLoop3, fmax_eq_max]; norm_num

/-- C8. For the stencil `[1, 1, 1]` the order-3 transform gives `[1, 0, 0]`; the
sum of weighted energies of the direction (`kappa3x`, `kappa3y`) is 1; the pair (top-mode
energy, total weighted energy) of a cell with that stencil in one direction and the zero
stencil in the other, or with that stencil in both, is (0, 1). -/
theorem basis3 :
    matVecLoop 3 A3 [1, 1, 1] [1, 1, 1] = ([1, 0, 0], [1, 0, 0])
    ∧ kappaLoop 3 [1, 0, 0] [1, 0, 0] = (1, 1)
    ∧ indicator3 [1, 1, 1] [0, 0, 0] = (0, 1)
    ∧ indicator3 [0, 0, 0] [1, 1, 1] = (0, 1)
    ∧ indicator3 [1, 1, 1] [1, 1, 1] = (0, 1) := by
  refine ⟨?_, ?_, ?_, ?_, ?_⟩
  · rw [matVecLoop3]; norm_num
  · rw [kappaLoop3]; norm_num
  · simp only [indicator3, matVecLoop3, kappaLoop3, fmax_eq_max]; norm_num
  · simp only [indicator3, matVecLoop3, kappaLoop3, fmax_eq_max]; norm_num
  · simp only [indicator3, matVecLoop3, kappaLoop3, fmax_eq_max]; norm_num

/-! ## The reduction over a block and the loop over the blocks -/

theorem fmax_fmax_left (h a : ℚ) : fmax h (fmax h a) = fmax h a := by
  simp only [fmax_eq_max, max_left_comm, max_self]
  simp

theorem maxIdentity_neg : maxIdentity < 0 := by
  unfold maxIdentity DBL_MAX
  norm_num

theorem fmax_maxIdentity {h : ℚ} (hh : 0 ≤ h) : fmax h maxIdentity = h := by
  rw [fmax_eq_max]
  exact max_eq_left (le_trans (le_of_lt maxIdentity_neg) hh)

/-- A fold of a step that takes the maximum with a fixed pair, over a non-empty range. -/
theorem foldlM_range_fmax (g : ℚ × ℚ → Nat → Option (ℚ × ℚ)) (h t : ℚ) (n : Nat)
    (hg : ∀ idx, idx < n + 1 → ∀ acc, g acc idx = some (fmax h acc.1, fmax t acc.2))
    (acc0 : ℚ × ℚ) :
    (List.range (n + 1)).foldlM g acc0 = some (fmax h acc0.1, fmax t acc0.2) := by
  induction n with
  | zero =>
    simp [List.range_succ, hg 0 (by omega)]
  | succ n ih =>
    rw [List.range_succ, List.foldlM_append, ih (fun idx hidx => hg idx (by omega))]
    simp [hg (n + 1) (by omega), fmax_fmax_left]

theorem cellKernel_stencil3 (ext : External) (pmbp : MeshBlockPack) (w0 : DvceArray5D)
    (m : Int) (idx : Int) (acc : ℚ × ℚ) (ux uy : List ℚ)
    (hst : pmbp.pmr.stencil_ = 3)
    (hs : sample3 ext pmbp.pmr.variable_ w0 m
      (decodeIdx (pmbp.mb_indcs.nx2 * pmbp.mb_indcs.nx1) pmbp.mb_indcs.nx1
        pmbp.mb_indcs.is pmbp.mb_indcs.js pmbp.mb_indcs.ks idx).1
      (decodeIdx (pmbp.mb_indcs.nx2 * pmbp.mb_indcs.nx1) pmbp.mb_indcs.nx1
        pmbp.mb_indcs.is pmbp.mb_indcs.js pmbp.mb_indcs.ks idx).2.1
      (decodeIdx (pmbp.mb_indcs.nx2 * pmbp.mb_indcs.nx1) pmbp.mb_indcs.nx1
        pmbp.mb_indcs.is pmbp.mb_indcs.js pmbp.mb_indcs.ks idx).2.2
      = some (ux, uy)) :
    cellKernel ext pmbp w0 m idx acc
      = some (fmax (indicator3 ux uy).1 acc.1, fmax (indicator3 ux uy).2 acc.2) := by
  simp [cellKernel, hst, hs]

theorem cellKernel_stencil5 (ext : External) (pmbp : MeshBlockPack) (w0 : DvceArray5D)
    (m : Int) (idx : Int) (acc : ℚ × ℚ) (ux uy : List ℚ)
    (hst : pmbp.pmr.stencil_ = 5)
    (hs : sample5 ext pmbp.pmr.variable_ w0 m
      (decodeIdx (pmbp.mb_indcs.nx2 * pmbp.mb_indcs.nx1) pmbp.mb_indcs.nx1
        pmbp.mb_indcs.is pmbp.mb_indcs.js pmbp.mb_indcs.ks idx).1
      (decodeIdx (pmbp.mb_indcs.nx2 * pmbp.mb_indcs.nx1) pmbp.mb_indcs.nx1
        pmbp.mb_indcs.is pmbp.mb_indcs.js pmbp.mb_indcs.ks idx).2.1
      (decodeIdx (pmbp.mb_indcs.nx2 * pmbp.mb_indcs.nx1) pmbp.mb_indcs.nx1
        pmbp.mb_indcs.is pmbp.mb_indcs.js pmbp.mb_indcs.ks idx).2.2
      = some (ux, uy)) :
    cellKernel ext pmbp w0 m idx acc
      = some (fmax (indicator5 ux uy).1 acc.1, fmax (indicator5 ux uy).2 acc.2) := by
  simp [cellKernel, hst, hs]

/-- The reduction over a block with at least one interior cell, all of whose cells have
the same order-3 stencils. -/
theorem blockReduce_uniform3 (ext : External) (pmbp : MeshBlockPack) (w0 : DvceArray5D)
    (m : Int) (ux uy : List ℚ)
    (hst : pmbp.pmr.stencil_ = 3)
    (hcells : 0 < pmbp.mb_indcs.nx3 * pmbp.mb_indcs.nx2 * pmbp.mb_indcs.nx1)
    (hu : BlockStencils3 ext pmbp w0 m ux uy) :
    blockReduce ext pmbp w0 m
      = some (fmax (indicator3 ux uy).1 maxIdentity, fmax (indicator3 ux uy).2 maxIdentity) := by
  unfold blockReduce
  obtain ⟨n, hn⟩ : ∃ n, (pmbp.mb_indcs.nx3 * pmbp.mb_indcs.nx2 * pmbp.mb_indcs.nx1).toNat = n + 1 :=
    Nat.exists_eq_succ_of_ne_zero (by omega)
  simp only [hn]
  apply foldlM_range_fmax
  intro idx hidx acc
  exact cellKernel_stencil3 ext pmbp w0 m idx acc ux uy hst (hu idx (by omega))

theorem blockReduce_uniform5 (ext : External) (pmbp : MeshBlockPack) (w0 : DvceArray5D)
    (m : Int) (ux uy : List ℚ)
    (hst : pmbp.pmr.stencil_ = 5)
    (hcells : 0 < pmbp.mb_indcs.nx3 * pmbp.mb_indcs.nx2 * pmbp.mb_indcs.nx1)
    (hu : BlockStencils5 ext pmbp w0 m ux uy) :
    blockReduce ext pmbp w0 m
      = some (fmax (indicator5 ux uy).1 maxIdentity, fmax (indicator5 ux uy).2 maxIdentity) := by
  unfold blockReduce
  obtain ⟨n, hn⟩ : ∃ n, (pmbp.mb_indcs.nx3 * pmbp.mb_indcs.nx2 * pmbp.mb_indcs.nx1).toNat = n + 1 :=
    Nat.exists_eq_succ_of_ne_zero (by omega)
  simp only [hn]
  apply foldlM_range_fmax
  intro idx hidx acc
  exact cellKernel_stencil5 ext pmbp w0 m idx acc ux uy hst (hu idx (by omega))

/-- The decision for the block `m` leaves every slot other than `m + mbs` as it was. -/
theorem decideFlags_other (ext : External) (stencil_ : Int) (aR aC : ℚ) (mbs m : Int)
    (cN sum_cN : ℚ) (flags : RefineFlags) (g : Int) (hg : g ≠ m + mbs) :
    decideFlags ext stencil_ aR aC mbs m cN sum_cN flags g = flags g := by
  simp only [decideFlags, thresholdTests]
  split_ifs <;> simp [Function.update, hg]

/-- The value the decision leaves in the slot `m + mbs` depends on the prior flags only
through the prior value of that slot. -/
theorem decideFlags_congr (ext : External) (stencil_ : Int) (aR aC : ℚ) (mbs m : Int)
    (cN sum_cN : ℚ) (f1 f2 : RefineFlags) (h : f1 (m + mbs) = f2 (m + mbs)) :
    decideFlags ext stencil_ aR aC mbs m cN sum_cN f1 (m + mbs)
      = decideFlags ext stencil_ aR aC mbs m cN sum_cN f2 (m + mbs) := by
  simp only [decideFlags, thresholdTests]
  split_ifs <;> simp_all [Function.update]

/-- The loop over the blocks `0 .. n - 1`: it is defined when the reduction of every
block is; the slot of each block then holds the decision for that block on the prior
value of the slot, and every other slot is as before. -/
theorem foldlM_blockBody (ext : External) (pmbp : MeshBlockPack) (w0 : DvceArray5D)
    (flags : RefineFlags) (n : Nat)
    (hdef : ∀ k : Nat, k < n → (blockReduce ext pmbp w0 k).isSome) :
    ∃ f, (List.range n).foldlM (fun fl (m : Nat) => blockBody ext pmbp w0 fl (m : Int)) flags
          = some f
      ∧ (∀ m : Nat, m < n → ∀ r, blockReduce ext pmbp w0 m = some r →
          f (m + pmbp.mbs)
            = decideFlags ext pmbp.pmr.stencil_ pmbp.pmr.alpha_refine_
                pmbp.pmr.alpha_coarsen_ pmbp.mbs m r.1 r.2 flags (m + pmbp.mbs))
      ∧ (∀ g : Int, (∀ m : Nat, m < n → g ≠ m + pmbp.mbs) → f g = flags g) := by
  induction n with
  | zero =>
    exact ⟨flags, by simp, fun m hm => absurd hm (Nat.not_lt_zero m), fun g _ => rfl⟩
  | succ n ih =>
    obtain ⟨f, hf, hslot, hframe⟩ := ih (fun k hk => hdef k (Nat.lt_succ_of_lt hk))
    obtain ⟨rn, hrn⟩ := Option.isSome_iff_exists.mp (hdef n (Nat.lt_succ_self n))
    refine ⟨decideFlags ext pmbp.pmr.stencil_ pmbp.pmr.alpha_refine_
      pmbp.pmr.alpha_coarsen_ pmbp.mbs n rn.1 rn.2 f, ?_, ?_, ?_⟩
    · rw [List.range_succ, List.foldlM_append, hf]
      simp [blockBody, hrn]
    · intro m hm r hr
      rcases Nat.lt_succ_iff_lt_or_eq.mp hm with hlt | heq
      · rw [decideFlags_other _ _ _ _ _ _ _ _ _ _ (by omega)]
        exact hslot m hlt r hr
      · subst heq
        rw [hrn] at hr
        cases hr
        apply decideFlags_congr
        exact hframe _ (fun k hk => by omega)
    · intro g hg
      rw [decideFlags_other _ _ _ _ _ _ _ _ _ _ (hg n (Nat.lt_succ_self n))]
      exact hframe g (fun k hk => hg k (Nat.lt_succ_of_lt hk))

/-- The slot of a block after the whole call: the call is defined when the reductions of
all blocks of the pack are, and the slot of the block `m` then holds the decision of
lines 401-425 on the reduced pair of the block and the prior value of the slot. -/
theorem RefinementCondition_slot (ext : External) (pmbp : MeshBlockPack) (w0 : DvceArray5D)
    (flags : RefineFlags) (m : Nat) (r : ℚ × ℚ)
    (hw : selectW0 pmbp = some w0)
    (hm : (m : Int) < pmbp.nmb_thispack)
    (hr : blockReduce ext pmbp w0 m = some r)
    (hdef : ∀ k : Nat, (k : Int) < pmbp.nmb_thispack → k ≠ m →
      (blockReduce ext pmbp w0 k).isSome) :
    ∃ f, RefinementCondition ext pmbp flags = some f
      ∧ f (m + pmbp.mbs)
          = decideFlags ext pmbp.pmr.stencil_ pmbp.pmr.alpha_refine_
              pmbp.pmr.alpha_coarsen_ pmbp.mbs m r.1 r.2 flags (m + pmbp.mbs) := by
  have hall : ∀ k : Nat, k < pmbp.nmb_thispack.toNat → (blockReduce ext pmbp w0 k).isSome := by
    intro k hk
    by_cases hkm : k = m
    · subst hkm; simp [hr]
    · exact hdef k (by omega) hkm
  obtain ⟨f, hf, hslot, _⟩ := foldlM_blockBody ext pmbp w0 flags _ hall
  refine ⟨f, ?_, hslot m (by omega) r hr⟩
  simp only [RefinementCondition, hw]
  exact hf

/-! ## Scenarios on the whole call -/

/-- C6, amended. For order 3 and order 5, every constant `c`, every pair of exponents
and every `std::pow` (so every pair of thresholds, positive or not) and every prior
flags: when the hydro or MHD module is active, the block `m` of the pack has at least one
interior cell, every cell of it has x- and y-stencil values all equal to `c`, and the
reductions of the other blocks read inside the array, the call is defined and the slot
`m + mbs` holds -1 after it when `c` is not 0; when `c = 0` the slot keeps its prior
value. The check writes Refine in neither case. -/
theorem constant_block_decision (ext : External) (pmbp : MeshBlockPack) (w0 : DvceArray5D)
    (flags : RefineFlags) (m : Nat) (c : ℚ)
    (hw : selectW0 pmbp = some w0)
    (hm : (m : Int) < pmbp.nmb_thispack)
    (hcells : 0 < pmbp.mb_indcs.nx3 * pmbp.mb_indcs.nx2 * pmbp.mb_indcs.nx1)
    (hconst : (pmbp.pmr.stencil_ = 3 ∧ BlockStencils3 ext pmbp w0 m [c, c, c] [c, c, c])
      ∨ (pmbp.pmr.stencil_ = 5
          ∧ BlockStencils5 ext pmbp w0 m [c, c, c, c, c] [c, c, c, c, c]))
    (hdef : ∀ k : Nat, (k : Int) < pmbp.nmb_thispack → k ≠ m →
      (blockReduce ext pmbp w0 k).isSome) :
    ∃ f, RefinementCondition ext pmbp flags = some f
      ∧ f (m + pmbp.mbs) = if c = 0 then flags (m + pmbp.mbs) else -1 := by
  rcases hconst with ⟨hst, hc⟩ | ⟨hst, hc⟩
  · have hr : blockReduce ext pmbp w0 m = some (0, c * c) := by
      rw [blockReduce_uniform3 ext pmbp w0 m _ _ hst hcells hc, indicator3_const]
      simp [fmax_maxIdentity, mul_self_nonneg]
    obtain ⟨f, hf, hslot⟩ := RefinementCondition_slot ext pmbp w0 flags m _ hw hm hr hdef
    refine ⟨f, hf, ?_⟩
    rw [hslot]
    by_cases h0 : c = 0
    · simp [decideFlags, thresholdTests, hst, h0]
    · have hpos : 0 < c * c := mul_self_pos.mpr h0
      simp [decideFlags, thresholdTests, hst, h0, hpos]
  · have hr : blockReduce ext pmbp w0 m
        = some (0, 83531/26496 * c * (83531/26496 * c)) := by
      rw [blockReduce_uniform5 ext pmbp w0 m _ _ hst hcells hc, indicator5_const]
      simp [fmax_maxIdentity, mul_self_nonneg]
    obtain ⟨f, hf, hslot⟩ := RefinementCondition_slot ext pmbp w0 flags m _ hw hm hr hdef
    refine ⟨f, hf, ?_⟩
    rw [hslot]
    by_cases h0 : c = 0
    · simp [decideFlags, thresholdTests, hst, h0]
    · have hpos : 0 < 83531/26496 * c * (83531/26496 * c) :=
        mul_self_pos.mpr (mul_ne_zero (by norm_num) h0)
      simp [decideFlags, thresholdTests, hst, h0, hpos]

theorem constant_block_decision_witness :
    ∃ f, RefinementCondition extQ (singleCellPack 5 (1/2) (1/2) (fieldOfDensity (fun _ _ => 1)))
          (fun _ => 1) = some f
      ∧ f ((0 : Nat) + (singleCellPack 5 (1/2) (1/2) (fieldOfDensity (fun _ _ => 1))).mbs)
          = if (1 : ℚ) = 0 then (fun _ => 1 : RefineFlags)
              ((0 : Nat) + (singleCellPack 5 (1/2) (1/2) (fieldOfDensity (fun _ _ => 1))).mbs)
            else -1 :=
  constant_block_decision extQ (singleCellPack 5 (1/2) (1/2) (fieldOfDensity (fun _ _ => 1)))
    (fieldOfDensity (fun _ _ => 1)) (fun _ => 1) 0 1 rfl (by decide) (by decide)
    (Or.inr ⟨rfl, fun idx hidx => by
      have h0 : idx = 0 := by simpa [singleCellPack] using hidx
      subst h0
      decide!⟩)
    (fun k hk hne => by
      exfalso
      have : (k : Int) < 1 := hk
      omega)

/-- C6 as stated fails at `c = 0`: order 3, one block of one interior cell on a field
that is 0 everywhere, both thresholds `2^1 = 2 > 0`, prior flag 0. Every stencil of the
block is the constant `[0, 0, 0]`, and the slot holds 0 after the call, not -1. -/
theorem constant_zero_block_not_coarsened :
    BlockStencils3 extQ (singleCellPack 3 (1/2) (1/2) (fieldOfDensity (fun _ _ => 0)))
      (fieldOfDensity (fun _ _ => 0)) 0 [0, 0, 0] [0, 0, 0]
    ∧ 0 < extQ.pow 2 (2 * (1/2))
    ∧ (RefinementCondition extQ (singleCellPack 3 (1/2) (1/2) (fieldOfDensity (fun _ _ => 0)))
        (fun _ => 0)).map (fun f => f 0) = some 0 := by
  refine ⟨fun idx hidx => ?_, by decide!, by decide!⟩
  have h0 : idx = 0 := by simpa [singleCellPack] using hidx
  subst h0
  decide!

/-- C9, amended. With order 3, `alphaRefine = 0.5` and `pow(2, 1) = 2`, for a block `m`
whose only interior cell has x- and y-stencil `[0, 1, 0]` (hydro or MHD active, the
reductions of the other blocks reading inside the array), for every prior flags and
every `alphaCoarsen`: the reduced pair of the block is (0.45, 0.5125), the call is
defined, and the slot `m + mbs` holds Refine (1) after it unless
`0.45 * thresholdCoarsen < 0.5125`, in which case it holds Coarsen (-1). -/
theorem refine_scenario (ext : External) (pmbp : MeshBlockPack) (w0 : DvceArray5D)
    (flags : RefineFlags) (m : Nat)
    (hw : selectW0 pmbp = some w0)
    (hst : pmbp.pmr.stencil_ = 3)
    (halpha : pmbp.pmr.alpha_refine_ = 0.5)
    (hpow : ext.pow 2 (2 * 0.5) = 2)
    (hm : (m : Int) < pmbp.nmb_thispack)
    (hone : pmbp.mb_indcs.nx3 * pmbp.mb_indcs.nx2 * pmbp.mb_indcs.nx1 = 1)
    (hspike : BlockStencils3 ext pmbp w0 m [0, 1, 0] [0, 1, 0])
    (hdef : ∀ k : Nat, (k : Int) < pmbp.nmb_thispack → k ≠ m →
      (blockReduce ext pmbp w0 k).isSome) :
    blockReduce ext pmbp w0 m = some (0.45, 0.5125)
    ∧ ∃ f, RefinementCondition ext pmbp flags = some f
        ∧ f (m + pmbp.mbs)
            = if 0.45 * ext.pow 2 (2 * pmbp.pmr.alpha_coarsen_) < 0.5125 then -1 else 1 := by
  have hind : indicator3 [0, 1, 0] [0, 1, 0] = (0.45, 0.5125) := by
    simp only [indicator3, matVecLoop3, kappaLoop3, fmax_eq_max]; norm_num
  have hr : blockReduce ext pmbp w0 m = some (0.45, 0.5125) := by
    rw [blockReduce_uniform3 ext pmbp w0 m _ _ hst (by omega) hspike, hind]
    simp only [fmax_maxIdentity (show (0:ℚ) ≤ 0.45 by norm_num),
      fmax_maxIdentity (show (0:ℚ) ≤ 0.5125 by norm_num)]
  refine ⟨hr, ?_⟩
  obtain ⟨f, hf, hslot⟩ := RefinementCondition_slot ext pmbp w0 flags m _ hw hm hr hdef
  refine ⟨f, hf, ?_⟩
  rw [hslot]
  have h2 : (0.45 : ℚ) * 2 > 0.5125 := by norm_num
  simp only [decideFlags, thresholdTests, hst, halpha, hpow]
  split_ifs <;> simp_all [Function.update]

theorem refine_scenario_witness :
    ∃ f, RefinementCondition extQ (singleCellPack 3 0.5 0.5 (fieldOfDensity spikeDensity))
          (fun _ => 0) = some f
      ∧ f ((0 : Nat) + (singleCellPack 3 0.5 0.5 (fieldOfDensity spikeDensity)).mbs)
          = if 0.45 * extQ.pow 2
                (2 * (singleCellPack 3 0.5 0.5 (fieldOfDensity spikeDensity)).pmr.alpha_coarsen_)
              < 0.5125 then -1 else 1 :=
  (refine_scenario extQ (singleCellPack 3 0.5 0.5 (fieldOfDensity spikeDensity))
    (fieldOfDensity spikeDensity) (fun _ => 0) 0 rfl rfl rfl (by decide!) (by decide)
    (by decide)
    (fun idx hidx => by
      have h0 : idx = 0 := by simpa [singleCellPack] using hidx
      subst h0
      decide!)
    (fun k hk hne => by
      exfalso
      have : (k : Int) < 1 := hk
      omega)).2

/-- C9 as stated fails at `alphaCoarsen = 0`: order 3, `alphaRefine = 0.5`, one block
whose only interior cell has the spike `[0, 1, 0]` in x and in y, prior flag 0. The
reduced pair is (0.45, 0.5125), `thresholdCoarsen = 2^0 = 1`, and the slot holds
Coarsen (-1) after the call, not Refine (1). -/
theorem refine_scenario_coarsened :
    (singleCellPack 3 0.5 0 (fieldOfDensity spikeDensity)).pmr.stencil_ = 3
    ∧ (singleCellPack 3 0.5 0 (fieldOfDensity spikeDensity)).pmr.alpha_refine_ = 0.5
    ∧ extQ.pow 2 (2 * 0.5) = 2
    ∧ BlockStencils3 extQ (singleCellPack 3 0.5 0 (fieldOfDensity spikeDensity))
        (fieldOfDensity spikeDensity) 0 [0, 1, 0] [0, 1, 0]
    ∧ blockReduce extQ (singleCellPack 3 0.5 0 (fieldOfDensity spikeDensity))
        (fieldOfDensity spikeDensity) 0 = some (0.45, 0.5125)
    ∧ (RefinementCondition extQ (singleCellPack 3 0.5 0 (fieldOfDensity spikeDensity))
        (fun _ => 0)).map (fun f => f 0) = some (-1) := by
  refine ⟨rfl, rfl, by decide!, fun idx hidx => ?_, by decide!, by decide!⟩
  have h0 : idx = 0 := by simpa [singleCellPack] using hidx
  subst h0
  decide!

/-- C10. With order 3, for every `alphaCoarsen`, every `alphaRefine`, every `std::pow`
and every prior flags: when the hydro or MHD module is active and the block `m` of the
pack has at least one interior cell, all of them with the constant stencil `[1, 1, 1]` in
x and in y (the reductions of the other blocks reading inside the array), the reduced
pair of the block is (0, 1), the call is defined, and the slot `m + mbs` holds
Coarsen (-1) after it. -/
theorem coarsen_scenario (ext : External) (pmbp : MeshBlockPack) (w0 : DvceArray5D)
    (flags : RefineFlags) (m : Nat)
    (hw : selectW0 pmbp = some w0)
    (hst : pmbp.pmr.stencil_ = 3)
    (hm : (m : Int) < pmbp.nmb_thispack)
    (hcells : 0 < pmbp.mb_indcs.nx3 * pmbp.mb_indcs.nx2 * pmbp.mb_indcs.nx1)
    (hconst : BlockStencils3 ext pmbp w0 m [1, 1, 1] [1, 1, 1])
    (hdef : ∀ k : Nat, (k : Int) < pmbp.nmb_thispack → k ≠ m →
      (blockReduce ext pmbp w0 k).isSome) :
    blockReduce ext pmbp w0 m = some (0, 1)
    ∧ ∃ f, RefinementCondition ext pmbp flags = some f ∧ f (m + pmbp.mbs) = -1 := by
  have hr : blockReduce ext pmbp w0 m = some (0, 1) := by
    rw [blockReduce_uniform3 ext pmbp w0 m _ _ hst hcells hconst, indicator3_const]
    simp [fmax_maxIdentity]
  refine ⟨hr, ?_⟩
  obtain ⟨f, hf, hslot⟩ := RefinementCondition_slot ext pmbp w0 flags m _ hw hm hr hdef
  refine ⟨f, hf, ?_⟩
  rw [hslot]
  simp [decideFlags, thresholdTests, hst]

theorem coarsen_scenario_witness :
    ∃ f, RefinementCondition extQ (singleCellPack 3 (1/2) 7 (fieldOfDensity (fun _ _ => 1)))
          (fun _ => 1) = some f
      ∧ f ((0 : Nat) + (singleCellPack 3 (1/2) 7 (fieldOfDensity (fun _ _ => 1))).mbs) = -1 :=
  (coarsen_scenario extQ (singleCellPack 3 (1/2) 7 (fieldOfDensity (fun _ _ => 1)))
    (fieldOfDensity (fun _ _ => 1)) (fun _ => 1) 0 rfl rfl (by decide) (by decide)
    (fun idx hidx => by
      have h0 : idx = 0 := by simpa [singleCellPack] using hidx
      subst h0
      decide!)
    (fun k hk hne => by
      exfalso
      have : (k : Int) < 1 := hk
      omega)).2

/-! ## Order and partition of the reduction -/

theorem accumulate_eq_max (acc c : ℚ × ℚ) :
    accumulate acc c = (max acc.1 c.1, max acc.2 c.2) := by
  simp only [accumulate, fmax_eq_max, max_comm]

theorem joinMax_eq_max (dest src : ℚ × ℚ) :
    joinMax dest src = (max dest.1 src.1, max dest.2 src.2) := by
  unfold joinMax
  refine Prod.ext ?_ ?_
  · show (if src.1 > dest.1 then src.1 else dest.1) = max dest.1 src.1
    split_ifs with h
    · exact (max_eq_right (le_of_lt h)).symm
    · exact (max_eq_left (not_lt.mp h)).symm
  · show (if src.2 > dest.2 then src.2 else dest.2) = max dest.2 src.2
    split_ifs with h
    · exact (max_eq_right (le_of_lt h)).symm
    · exact (max_eq_left (not_lt.mp h)).symm

theorem accumulate_comm (z x y : ℚ × ℚ) :
    accumulate (accumulate z x) y = accumulate (accumulate z y) x := by
  simp only [accumulate_eq_max]
  have h1 : max (max z.1 x.1) y.1 = max (max z.1 y.1) x.1 := by
    rw [max_assoc, max_comm x.1, ← max_assoc]
  have h2 : max (max z.2 x.2) y.2 = max (max z.2 y.2) x.2 := by
    rw [max_assoc, max_comm x.2, ← max_assoc]
  rw [h1, h2]

theorem foldl_accumulate_joinMax (a b : ℚ × ℚ) (l : List (ℚ × ℚ)) :
    l.foldl accumulate (joinMax a b) = joinMax a (l.foldl accumulate b) := by
  induction l generalizing b with
  | nil => rfl
  | cons c l ih =>
    have h : accumulate (joinMax a b) c = joinMax a (accumulate b c) := by
      simp only [accumulate_eq_max, joinMax_eq_max, max_assoc]
    simp only [List.foldl_cons, h, ih]

theorem joinMax_maxIdentity (a : ℚ × ℚ) (h1 : maxIdentity ≤ a.1) (h2 : maxIdentity ≤ a.2) :
    joinMax a (maxIdentity, maxIdentity) = a := by
  rw [joinMax_eq_max]
  exact Prod.ext (max_eq_left h1) (max_eq_left h2)

theorem foldl_accumulate_ge (a : ℚ × ℚ) (l : List (ℚ × ℚ)) :
    a.1 ≤ (l.foldl accumulate a).1 ∧ a.2 ≤ (l.foldl accumulate a).2
    ∧ ∀ c ∈ l, c.1 ≤ (l.foldl accumulate a).1 ∧ c.2 ≤ (l.foldl accumulate a).2 := by
  induction l generalizing a with
  | nil => simp
  | cons c l ih =>
    obtain ⟨h1, h2, h3⟩ := ih (accumulate a c)
    simp only [List.foldl_cons, List.mem_cons, forall_eq_or_imp]
    simp only [accumulate_eq_max] at h1 h2 h3 ⊢
    exact ⟨le_trans (le_max_left _ _) h1, le_trans (le_max_left _ _) h2,
      ⟨le_trans (le_max_right _ _) h1, le_trans (le_max_right _ _) h2⟩, h3⟩

theorem foldl_accumulate_attained (a : ℚ × ℚ) (l : List (ℚ × ℚ)) :
    ((l.foldl accumulate a).1 = a.1 ∨ ∃ c ∈ l, c.1 = (l.foldl accumulate a).1)
    ∧ ((l.foldl accumulate a).2 = a.2 ∨ ∃ c ∈ l, c.2 = (l.foldl accumulate a).2) := by
  induction l generalizing a with
  | nil => simp
  | cons c l ih =>
    obtain ⟨h1, h2⟩ := ih (accumulate a c)
    simp only [List.foldl_cons, List.mem_cons, exists_eq_or_imp]
    constructor
    · rcases h1 with h | ⟨d, hd, hde⟩
      · rw [h, accumulate_eq_max]
        rcases max_choice a.1 c.1 with hm | hm
        · exact Or.inl hm
        · exact Or.inr (Or.inl hm.symm)
      · exact Or.inr (Or.inr ⟨d, hd, hde⟩)
    · rcases h2 with h | ⟨d, hd, hde⟩
      · rw [h, accumulate_eq_max]
        rcases max_choice a.2 c.2 with hm | hm
        · exact Or.inl hm
        · exact Or.inr (Or.inl hm.symm)
      · exact Or.inr (Or.inr ⟨d, hd, hde⟩)

theorem foldl_joinMax_reducePairs (a : ℚ × ℚ) (h1 : maxIdentity ≤ a.1)
    (h2 : maxIdentity ≤ a.2) (chunks : List (List (ℚ × ℚ))) :
    (chunks.map reducePairs).foldl joinMax a = chunks.flatten.foldl accumulate a := by
  induction chunks generalizing a with
  | nil => rfl
  | cons ch chunks ih =>
    have hstep : joinMax a (reducePairs ch) = ch.foldl accumulate a := by
      unfold reducePairs
      rw [← foldl_accumulate_joinMax, joinMax_maxIdentity a h1 h2]
    simp only [List.map_cons, List.foldl_cons, List.flatten_cons, List.foldl_append, hstep]
    obtain ⟨g1, g2, _⟩ := foldl_accumulate_ge a ch
    exact ih _ (le_trans h1 g1) (le_trans h2 g2)

/-- C11. The reduction of a list of per-cell pairs from the identity of the reducers
does not depend on the visiting order or on the partition of the work: for every list
`cells`, the sequential fold over any permutation of it, and the join of the folds of the
chunks of any split of it, equal the sequential fold over `cells`. When `cells` is not
empty and its values are at least `-DBL_MAX` (as every finite double is), the result is
the componentwise maximum: it bounds every pair and each component is attained. -/
theorem reduction_invariance (cells : List (ℚ × ℚ)) :
    (∀ permuted : List (ℚ × ℚ), permuted.Perm cells →
      reducePairs permuted = reducePairs cells)
    ∧ (∀ chunks : List (List (ℚ × ℚ)), chunks.flatten = cells →
      reduceChunks chunks = reducePairs cells)
    ∧ (cells ≠ [] → (∀ c ∈ cells, maxIdentity ≤ c.1 ∧ maxIdentity ≤ c.2) →
      (∀ c ∈ cells, c.1 ≤ (reducePairs cells).1 ∧ c.2 ≤ (reducePairs cells).2)
      ∧ (∃ c ∈ cells, c.1 = (reducePairs cells).1)
      ∧ (∃ c ∈ cells, c.2 = (reducePairs cells).2)) := by
  refine ⟨?_, ?_, ?_⟩
  · intro permuted hperm
    exact hperm.foldl_eq' (fun x _ y _ z => accumulate_comm z x y) _
  · intro chunks hsplit
    unfold reduceChunks
    rw [foldl_joinMax_reducePairs _ (le_refl _) (le_refl _), hsplit]
    rfl
  · intro hne hfinite
    obtain ⟨c, l, rfl⟩ := List.exists_cons_of_ne_nil hne
    have hge := (foldl_accumulate_ge (maxIdentity, maxIdentity) (c :: l)).2.2
    have hc := hge c (List.mem_cons_self _ _)
    have hfc := hfinite c (List.mem_cons_self _ _)
    refine ⟨hge, ?_, ?_⟩
    · rcases (foldl_accumulate_attained (maxIdentity, maxIdentity) (c :: l)).1 with h | h
      · refine ⟨c, List.mem_cons_self _ _, le_antisymm hc.1 ?_⟩
        show (reducePairs (c :: l)).1 ≤ c.1
        unfold reducePairs
        rw [h]
        exact hfc.1
      · exact h
    · rcases (foldl_accumulate_attained (maxIdentity, maxIdentity) (c :: l)).2 with h | h
      · refine ⟨c, List.mem_cons_self _ _, le_antisymm hc.2 ?_⟩
        show (reducePairs (c :: l)).2 ≤ c.2
        unfold reducePairs
        rw [h]
        exact hfc.2
      · exact h

theorem reduction_invariance_witness :
    reducePairs [(2, 5), (0, 1), (1, 3)] = reducePairs [(0, 1), (1, 3), (2, 5)]
    ∧ reduceChunks [[(0, 1)], [(1, 3), (2, 5)]] = reducePairs [(0, 1), (1, 3), (2, 5)]
    ∧ (∃ c ∈ [((0 : ℚ), (1 : ℚ)), (1, 3), (2, 5)],
        c.1 = (reducePairs [(0, 1), (1, 3), (2, 5)]).1) := by
  have h := reduction_invariance [(0, 1), (1, 3), (2, 5)]
  refine ⟨h.1 [(2, 5), (0, 1), (1, 3)] (by decide),
    h.2.1 [[(0, 1)], [(1, 3), (2, 5)]] rfl, (h.2.2 (by simp) ?_).2.1⟩
  intro c hc
  have hneg := le_of_lt maxIdentity_neg
  simp only [List.mem_cons, List.mem_singleton, List.not_mem_nil, or_false] at hc
  rcases hc with rfl | rfl | rfl <;> constructor <;> norm_num <;> linarith

/-- The per-cell view of the reduction lambda. -/
theorem cellKernel_eq_cellPair (ext : External) (pmbp : MeshBlockPack) (w0 : DvceArray5D)
    (m idx : Int) (acc : ℚ × ℚ) (hst : pmbp.pmr.stencil_ = 3 ∨ pmbp.pmr.stencil_ = 5) :
    cellKernel ext pmbp w0 m idx acc = (cellPair ext pmbp w0 m idx).map (accumulate acc) := by
  rcases hst with hst | hst
  · simp only [cellKernel, cellPair, hst]
    cases sample3 ext pmbp.pmr.variable_ w0 m _ _ _ <;> simp [accumulate]
  · simp only [cellKernel, cellPair, hst]
    cases sample5 ext pmbp.pmr.variable_ w0 m _ _ _ <;> simp [accumulate]

theorem foldlM_map_accumulate (p : Nat → Option (ℚ × ℚ)) (l : List Nat)
    (cells : List (ℚ × ℚ)) (a : ℚ × ℚ) (h : l.map p = cells.map some) :
    l.foldlM (fun acc idx => (p idx).map (accumulate acc)) a = some (cells.foldl accumulate a) := by
  induction l generalizing cells a with
  | nil =>
    cases cells with
    | nil => rfl
    | cons c cells => simp at h
  | cons x l ih =>
    cases cells with
    | nil => simp at h
    | cons c cells =>
      simp only [List.map_cons, List.cons.injEq] at h
      simp only [List.foldlM_cons, h.1, Option.map_some', List.foldl_cons]
      exact ih cells _ h.2

/-- The reduction of the code is the fold of the per-cell pairs. -/
theorem blockReduce_eq_reducePairs (ext : External) (pmbp : MeshBlockPack) (w0 : DvceArray5D)
    (m : Int) (cells : List (ℚ × ℚ))
    (hst : pmbp.pmr.stencil_ = 3 ∨ pmbp.pmr.stencil_ = 5)
    (hcells : (List.range (pmbp.mb_indcs.nx3 * pmbp.mb_indcs.nx2 * pmbp.mb_indcs.nx1).toNat).map
        (fun idx : Nat => cellPair ext pmbp w0 m idx) = cells.map some) :
    blockReduce ext pmbp w0 m = some (reducePairs cells) := by
  unfold blockReduce reducePairs
  simp only [cellKernel_eq_cellPair ext pmbp w0 m _ _ hst]
  exact foldlM_map_accumulate (fun idx : Nat => cellPair ext pmbp w0 m idx) _ cells _ hcells

/-! ## The flag array after the whole call -/

theorem foldlM_blockBody_defined (ext : External) (pmbp : MeshBlockPack) (w0 : DvceArray5D)
    (n : Nat) (flags f : RefineFlags)
    (h : (List.range n).foldlM (fun fl (m : Nat) => blockBody ext pmbp w0 fl (m : Int)) flags
      = some f) :
    ∀ k : Nat, k < n → (blockReduce ext pmbp w0 k).isSome := by
  induction n generalizing f with
  | zero => intro k hk; omega
  | succ n ih =>
    rw [List.range_succ, List.foldlM_append] at h
    cases h1 : (List.range n).foldlM
        (fun fl (m : Nat) => blockBody ext pmbp w0 fl (m : Int)) flags with
    | none => simp [h1] at h
    | some f1 =>
      intro k hk
      rcases Nat.lt_succ_iff_lt_or_eq.mp hk with hlt | heq
      · exact ih f1 h1 k hlt
      · subst heq
        cases hr : blockReduce ext pmbp w0 (k : Int) with
        | none => simp [h1, blockBody, hr] at h
        | some r => rfl

/-- What a defined call leaves in the flag array. -/
theorem RefinementCondition_some (ext : External) (pmbp : MeshBlockPack) (w0 : DvceArray5D)
    (flags f : RefineFlags) (hw : selectW0 pmbp = some w0)
    (h : RefinementCondition ext pmbp flags = some f) :
    (∀ m : Nat, (m : Int) < pmbp.nmb_thispack → ∃ r, blockReduce ext pmbp w0 m = some r
        ∧ f (m + pmbp.mbs)
          = decideFlags ext pmbp.pmr.stencil_ pmbp.pmr.alpha_refine_
              pmbp.pmr.alpha_coarsen_ pmbp.mbs m r.1 r.2 flags (m + pmbp.mbs))
    ∧ (∀ g : Int, (∀ m : Nat, (m : Int) < pmbp.nmb_thispack → g ≠ m + pmbp.mbs) →
        f g = flags g) := by
  simp only [RefinementCondition, hw] at h
  have hdef := foldlM_blockBody_defined ext pmbp w0 _ flags f h
  obtain ⟨f2, hf2, hslot, hframe⟩ := foldlM_blockBody ext pmbp w0 flags _ hdef
  rw [h] at hf2
  cases hf2
  constructor
  · intro m hm
    have hm2 : m < pmbp.nmb_thispack.toNat := by omega
    obtain ⟨r, hr⟩ := Option.isSome_iff_exists.mp (hdef m hm2)
    exact ⟨r, hr, hslot m hm2 r hr⟩
  · intro g hg
    exact hframe g (fun m hm => hg m (by omega))

/-- C12. Slot isolation. A defined call writes only the slots `mbs + m` with
`0 ≤ m < nmb`: for every field data, stencil order, variable selector, exponents and prior
flags, an entry `g` with `g < mbs` or `g ≥ mbs + nmb` has after the call the value it had
before. -/
theorem slot_isolation (ext : External) (pmbp : MeshBlockPack) (flags f : RefineFlags)
    (hcall : RefinementCondition ext pmbp flags = some f) (g : Int)
    (hg : g < pmbp.mbs ∨ pmbp.mbs + pmbp.nmb_thispack ≤ g) :
    f g = flags g := by
  cases hw : selectW0 pmbp with
  | none =>
    simp only [RefinementCondition, hw, Option.some.injEq] at hcall
    rw [hcall]
  | some w0 =>
    exact (RefinementCondition_some ext pmbp w0 flags f hw hcall).2 g
      (fun m hm => by omega)

theorem slot_isolation_witness :
    ∃ f, RefinementCondition extQ (singleCellPack 3 (1/2) 0 (fieldOfDensity spikeDensity))
          (fun g => g + 7) = some f
      ∧ f (-1) = 6 ∧ f 1 = 8 := by
  have hs : (RefinementCondition extQ
      (singleCellPack 3 (1/2) 0 (fieldOfDensity spikeDensity)) (fun g => g + 7)).isSome
        = true := by decide!
  obtain ⟨f, hf⟩ := Option.isSome_iff_exists.mp hs
  exact ⟨f, hf, slot_isolation extQ _ (fun g => g + 7) f hf (-1) (Or.inl (by decide)),
    slot_isolation extQ _ (fun g => g + 7) f hf 1 (Or.inr (by decide))⟩

theorem foldlM_const_some {α β : Type} (g : β → α → Option β)
    (hg : ∀ b a, g b a = some b) (l : List α) (b : β) : l.foldlM g b = some b := by
  induction l with
  | nil => rfl
  | cons a l ih => simp [List.foldlM_cons, hg, ih]

/-- C13. For every stencil order other than 3 and 5 the call is a silent no-op: for
every field data, exponents, variable selector and prior flags the call is defined
(nothing is read and no error arises) and returns the flag array unchanged. -/
theorem unsupported_stencil_noop (ext : External) (pmbp : MeshBlockPack) (flags : RefineFlags)
    (h3 : pmbp.pmr.stencil_ ≠ 3) (h5 : pmbp.pmr.stencil_ ≠ 5) :
    RefinementCondition ext pmbp flags = some flags := by
  unfold RefinementCondition
  cases selectW0 pmbp with
  | none => rfl
  | some w0 =>
    apply foldlM_const_some
    intro fl m
    have hr : blockReduce ext pmbp w0 (m : Int) = some (maxIdentity, maxIdentity) := by
      unfold blockReduce
      apply foldlM_const_some
      intro acc idx
      simp [cellKernel, h3, h5]
    simp [blockBody, hr, decideFlags, h3, h5]

theorem unsupported_stencil_noop_witness :
    RefinementCondition extQ (singleCellPack 4 (1/2) 0 (fieldOfDensity spikeDensity))
        (fun g => g) = some (fun g => g) :=
  unsupported_stencil_noop extQ (singleCellPack 4 (1/2) 0 (fieldOfDensity spikeDensity))
    (fun g => g) (by decide) (by decide)

theorem decideFlags_idem (ext : External) (stencil_ : Int) (aR aC : ℚ) (mbs m : Int)
    (cN sum_cN : ℚ) (f0 f1 : RefineFlags)
    (h : f1 (m + mbs) = decideFlags ext stencil_ aR aC mbs m cN sum_cN f0 (m + mbs)) :
    decideFlags ext stencil_ aR aC mbs m cN sum_cN f1 (m + mbs) = f1 (m + mbs) := by
  simp only [decideFlags, thresholdTests] at h ⊢
  split_ifs at h ⊢ <;> simp_all [Function.update]

/-- C16. For fixed field data and configuration the check is idempotent on the flag
array: for every prior flags, running the call again on the flags that a first call
returned gives the same flags (a call with undefined behaviour has no result to run
on). -/
theorem RefinementCondition_idempotent (ext : External) (pmbp : MeshBlockPack)
    (flags : RefineFlags) :
    (RefinementCondition ext pmbp flags).bind (RefinementCondition ext pmbp)
      = RefinementCondition ext pmbp flags := by
  cases h : RefinementCondition ext pmbp flags with
  | none => rfl
  | some f =>
    show RefinementCondition ext pmbp f = some f
    cases hw : selectW0 pmbp with
    | none => simp [RefinementCondition, hw]
    | some w0 =>
      obtain ⟨hslot, _⟩ := RefinementCondition_some ext pmbp w0 flags f hw h
      have hdef : ∀ k : Nat, k < pmbp.nmb_thispack.toNat →
          (blockReduce ext pmbp w0 k).isSome := by
        intro k hk
        obtain ⟨r, hr, _⟩ := hslot k (by omega)
        simp [hr]
      obtain ⟨f2, hf2, hslot2, hframe2⟩ := foldlM_blockBody ext pmbp w0 f _ hdef
      have heq : f2 = f := by
        funext g
        by_cases hg : ∃ m : Nat, m < pmbp.nmb_thispack.toNat ∧ g = m + pmbp.mbs
        · obtain ⟨m, hm, rfl⟩ := hg
          obtain ⟨r, hr, hfr⟩ := hslot m (by omega)
          rw [hslot2 m hm r hr]
          exact decideFlags_idem _ _ _ _ _ _ _ _ flags f hfr
        · exact hframe2 g (fun m hm hgm => hg ⟨m, hm, hgm⟩)
      simp only [RefinementCondition, hw]
      rw [hf2, heq]

/-! ## The decode of the flattened index -/

/-- For a non-negative index and positive cell counts the C divisions of the decode are
the quotient and remainders of Euclidean division. -/
theorem decodeIdx_eq_divmod (nx1 nx2 is js ks idx : Int) (h1 : 1 ≤ nx1) (h2 : 1 ≤ nx2)
    (hidx : 0 ≤ idx) :
    decodeIdx (nx2 * nx1) nx1 is js ks idx
      = (idx / (nx2 * nx1) + ks, idx % (nx2 * nx1) / nx1 + js,
         idx % (nx2 * nx1) % nx1 + is) := by
  have hpos : 0 < nx2 * nx1 := Int.mul_pos (by omega) (by omega)
  have hk : Int.tdiv idx (nx2 * nx1) = idx / (nx2 * nx1) :=
    Int.tdiv_eq_ediv hidx (le_of_lt hpos)
  have hrem : idx - idx / (nx2 * nx1) * (nx2 * nx1) = idx % (nx2 * nx1) := by
    rw [Int.emod_def, mul_comm]
  have hrem0 : 0 ≤ idx % (nx2 * nx1) := Int.emod_nonneg _ (ne_of_gt hpos)
  have hj : Int.tdiv (idx % (nx2 * nx1)) nx1 = idx % (nx2 * nx1) / nx1 :=
    Int.tdiv_eq_ediv hrem0 (by omega)
  have hi : idx % (nx2 * nx1) - idx % (nx2 * nx1) / nx1 * nx1 = idx % (nx2 * nx1) % nx1 := by
    rw [Int.emod_def (idx % (nx2 * nx1)) nx1]
    ring
  simp only [decodeIdx, hk, hrem, hj, hi]

theorem decodeIdx_mem_box (nx1 nx2 nx3 is js ks idx : Int) (h1 : 1 ≤ nx1) (h2 : 1 ≤ nx2)
    (hidx : 0 ≤ idx) (hlt : idx < nx3 * nx2 * nx1) :
    (ks ≤ (decodeIdx (nx2 * nx1) nx1 is js ks idx).1
      ∧ (decodeIdx (nx2 * nx1) nx1 is js ks idx).1 < ks + nx3)
    ∧ (js ≤ (decodeIdx (nx2 * nx1) nx1 is js ks idx).2.1
      ∧ (decodeIdx (nx2 * nx1) nx1 is js ks idx).2.1 < js + nx2)
    ∧ (is ≤ (decodeIdx (nx2 * nx1) nx1 is js ks idx).2.2
      ∧ (decodeIdx (nx2 * nx1) nx1 is js ks idx).2.2 < is + nx1) := by
  rw [decodeIdx_eq_divmod nx1 nx2 is js ks idx h1 h2 hidx]
  have hpos : 0 < nx2 * nx1 := Int.mul_pos (by omega) (by omega)
  have hpos1 : 0 < nx1 := by omega
  have hk0 : 0 ≤ idx / (nx2 * nx1) := Int.ediv_nonneg hidx (le_of_lt hpos)
  have hk1 : idx / (nx2 * nx1) < nx3 :=
    Int.ediv_lt_of_lt_mul hpos (by rw [← mul_assoc]; exact hlt)
  have hrem0 : 0 ≤ idx % (nx2 * nx1) := Int.emod_nonneg _ (ne_of_gt hpos)
  have hrem1 : idx % (nx2 * nx1) < nx2 * nx1 := Int.emod_lt_of_pos _ hpos
  have hj0 : 0 ≤ idx % (nx2 * nx1) / nx1 := Int.ediv_nonneg hrem0 (le_of_lt hpos1)
  have hj1 : idx % (nx2 * nx1) / nx1 < nx2 := Int.ediv_lt_of_lt_mul hpos1 hrem1
  have hi0 : 0 ≤ idx % (nx2 * nx1) % nx1 := Int.emod_nonneg _ (ne_of_gt hpos1)
  have hi1 : idx % (nx2 * nx1) % nx1 < nx1 := Int.emod_lt_of_pos _ hpos1
  refine ⟨⟨?_, ?_⟩, ⟨?_, ?_⟩, ⟨?_, ?_⟩⟩ <;> simp only [] <;> omega

/-- The flattened index of a cell of the interior box, and its decode. -/
theorem decodeIdx_encode (nx1 nx2 is js ks kk jj ii : Int) (h1 : 1 ≤ nx1) (h2 : 1 ≤ nx2)
    (hk : 0 ≤ kk) (hj0 : 0 ≤ jj) (hj1 : jj < nx2) (hi0 : 0 ≤ ii) (hi1 : ii < nx1) :
    decodeIdx (nx2 * nx1) nx1 is js ks (kk * (nx2 * nx1) + jj * nx1 + ii)
      = (kk + ks, jj + js, ii + is) := by
  have hpos : 0 < nx2 * nx1 := Int.mul_pos (by omega) (by omega)
  have hpos1 : 0 < nx1 := by omega
  have hr0 : 0 ≤ jj * nx1 + ii := by positivity
  have hr1 : jj * nx1 + ii < nx2 * nx1 := by nlinarith
  have hidx : 0 ≤ kk * (nx2 * nx1) + jj * nx1 + ii := by positivity
  rw [decodeIdx_eq_divmod nx1 nx2 is js ks _ h1 h2 hidx]
  obtain ⟨hq, hr⟩ := (Int.ediv_emod_unique (a := kk * (nx2 * nx1) + jj * nx1 + ii)
    (r := jj * nx1 + ii) (q := kk) hpos).mpr ⟨by ring, hr0, hr1⟩
  obtain ⟨hq2, hr2⟩ := (Int.ediv_emod_unique (a := jj * nx1 + ii)
    (r := ii) (q := jj) hpos1).mpr ⟨by ring, hi0, hi1⟩
  rw [hq, hr, hq2, hr2]

/-- The flattened index is recovered from its decode. -/
theorem decodeIdx_inj (nx1 nx2 is js ks idx k j i : Int) (h1 : 1 ≤ nx1) (h2 : 1 ≤ nx2)
    (hidx : 0 ≤ idx) (h : decodeIdx (nx2 * nx1) nx1 is js ks idx = (k, j, i)) :
    idx = (k - ks) * (nx2 * nx1) + (j - js) * nx1 + (i - is) := by
  rw [decodeIdx_eq_divmod nx1 nx2 is js ks idx h1 h2 hidx] at h
  simp only [Prod.mk.injEq] at h
  obtain ⟨hk, hj, hi⟩ := h
  have e1 := Int.ediv_add_emod idx (nx2 * nx1)
  have e2 := Int.ediv_add_emod (idx % (nx2 * nx1)) nx1
  have hk2 : k - ks = idx / (nx2 * nx1) := by omega
  have hj2 : j - js = idx % (nx2 * nx1) / nx1 := by omega
  have hi2 : i - is = idx % (nx2 * nx1) % nx1 := by omega
  rw [hk2, hj2, hi2]
  linarith [mul_comm (nx2 * nx1) (idx / (nx2 * nx1)), mul_comm nx1 (idx % (nx2 * nx1) / nx1)]

/-- C15. For `nx1, nx2 ≥ 1` with `nx1 = ie - is + 1`, `nx2 = je - js + 1` and
`nx3 = ke - ks + 1`, the decode of lines 261-265 sends every `idx` of
`[0, nx1 * nx2 * nx3)` into the box `[ks, ke] x [js, je] x [is, ie]`, and every triple of
the box is the decode of exactly one such `idx`. (The bound `nx3 ≥ 1` of the claim is not
needed.) -/
theorem decodeIdx_bijection (nx1 nx2 nx3 is ie js je ks ke : Int)
    (h1 : 1 ≤ nx1) (h2 : 1 ≤ nx2)
    (e1 : nx1 = ie - is + 1) (e2 : nx2 = je - js + 1) (e3 : nx3 = ke - ks + 1) :
    (∀ idx : Int, 0 ≤ idx → idx < nx1 * nx2 * nx3 →
      (ks ≤ (decodeIdx (nx2 * nx1) nx1 is js ks idx).1
        ∧ (decodeIdx (nx2 * nx1) nx1 is js ks idx).1 ≤ ke)
      ∧ (js ≤ (decodeIdx (nx2 * nx1) nx1 is js ks idx).2.1
        ∧ (decodeIdx (nx2 * nx1) nx1 is js ks idx).2.1 ≤ je)
      ∧ (is ≤ (decodeIdx (nx2 * nx1) nx1 is js ks idx).2.2
        ∧ (decodeIdx (nx2 * nx1) nx1 is js ks idx).2.2 ≤ ie))
    ∧ (∀ k j i : Int, ks ≤ k → k ≤ ke → js ≤ j → j ≤ je → is ≤ i → i ≤ ie →
        ∃! idx : Int, (0 ≤ idx ∧ idx < nx1 * nx2 * nx3)
          ∧ decodeIdx (nx2 * nx1) nx1 is js ks idx = (k, j, i)) := by
  constructor
  · intro idx h0 hlt
    have hlt2 : idx < nx3 * nx2 * nx1 := by
      have : nx3 * nx2 * nx1 = nx1 * nx2 * nx3 := by ring
      omega
    have hb := decodeIdx_mem_box nx1 nx2 nx3 is js ks idx h1 h2 h0 hlt2
    omega
  · intro k j i hk0 hk1 hj0 hj1 hi0 hi1
    refine ⟨(k - ks) * (nx2 * nx1) + (j - js) * nx1 + (i - is), ⟨⟨?_, ?_⟩, ?_⟩, ?_⟩
    · have : 0 ≤ k - ks := by omega
      have : 0 ≤ j - js := by omega
      have : 0 ≤ i - is := by omega
      positivity
    · have a1 : k - ks ≤ nx3 - 1 := by omega
      have a2 : j - js ≤ nx2 - 1 := by omega
      have a3 : i - is ≤ nx1 - 1 := by omega
      have a4 : 0 ≤ j - js := by omega
      have p1 : 0 < nx2 * nx1 := Int.mul_pos (by omega) (by omega)
      have b1 : (k - ks) * (nx2 * nx1) ≤ (nx3 - 1) * (nx2 * nx1) :=
        Int.mul_le_mul_of_nonneg_right a1 (le_of_lt p1)
      have b2 : (j - js) * nx1 ≤ (nx2 - 1) * nx1 :=
        Int.mul_le_mul_of_nonneg_right a2 (by omega)
      have : nx1 * nx2 * nx3 = (nx3 - 1) * (nx2 * nx1) + (nx2 - 1) * nx1 + nx1 := by ring
      omega
    · rw [decodeIdx_encode nx1 nx2 is js ks (k - ks) (j - js) (i - is) h1 h2
        (by omega) (by omega) (by omega) (by omega) (by omega)]
      simp
    · rintro idx ⟨⟨h0, _⟩, hdec⟩
      exact decodeIdx_inj nx1 nx2 is js ks idx k j i h1 h2 h0 hdec

theorem decodeIdx_bijection_witness :
    (∀ idx : Int, 0 ≤ idx → idx < 2 * 3 * 1 →
      ((0 : Int) ≤ (decodeIdx (3 * 2) 2 2 2 0 idx).1 ∧ (decodeIdx (3 * 2) 2 2 2 0 idx).1 ≤ 0)
      ∧ ((2 : Int) ≤ (decodeIdx (3 * 2) 2 2 2 0 idx).2.1
        ∧ (decodeIdx (3 * 2) 2 2 2 0 idx).2.1 ≤ 4)
      ∧ ((2 : Int) ≤ (decodeIdx (3 * 2) 2 2 2 0 idx).2.2
        ∧ (decodeIdx (3 * 2) 2 2 2 0 idx).2.2 ≤ 3))
    ∧ decodeIdx (3 * 2) 2 2 2 0 5 = (0, 4, 3) :=
  ⟨(decodeIdx_bijection 2 3 1 2 3 2 4 0 0 (by decide) (by decide)
      (by decide) (by decide) (by decide)).1, by decide⟩

/-! ## The halo precondition -/

theorem read_eq_some (w : DvceArray5D) (m n k j i : Int)
    (hm : 0 ≤ m ∧ m < w.nmb) (hn : 0 ≤ n ∧ n < w.nvar) (hk : 0 ≤ k ∧ k < w.nk)
    (hj : 0 ≤ j ∧ j < w.nj) (hi : 0 ≤ i ∧ i < w.ni) :
    w.read m n k j i = some (w.val m n k j i) := by
  unfold DvceArray5D.read
  rw [if_pos ⟨hm.1, hm.2, hn.1, hn.2, hk.1, hk.2, hj.1, hj.2, hi.1, hi.2⟩]

theorem speed_isSome (ext : External) (w : DvceArray5D) (m k j i : Int)
    (hm : 0 ≤ m ∧ m < w.nmb) (hvx : 0 ≤ ext.IVX ∧ ext.IVX < w.nvar)
    (hvy : 0 ≤ ext.IVY ∧ ext.IVY < w.nvar) (hk : 0 ≤ k ∧ k < w.nk)
    (hj : 0 ≤ j ∧ j < w.nj) (hi : 0 ≤ i ∧ i < w.ni) :
    ∃ v, speed ext w m k j i = some v := by
  simp [speed, read_eq_some w m _ k j i hm hvx hk hj hi,
    read_eq_some w m _ k j i hm hvy hk hj hi]

theorem sample3_isSome (ext : External) (variable_ : Int) (w : DvceArray5D) (m k j i : Int)
    (hvar : variable_ = 1 ∨ variable_ = 2)
    (hm : 0 ≤ m ∧ m < w.nmb) (hd : 0 ≤ ext.IDN ∧ ext.IDN < w.nvar)
    (hvx : 0 ≤ ext.IVX ∧ ext.IVX < w.nvar) (hvy : 0 ≤ ext.IVY ∧ ext.IVY < w.nvar)
    (hk : 0 ≤ k ∧ k < w.nk) (hj : 0 ≤ j - 1 ∧ j + 1 < w.nj) (hi : 0 ≤ i - 1 ∧ i + 1 < w.ni) :
    (sample3 ext variable_ w m k j i).isSome := by
  rcases hvar with hv | hv
  · simp [sample3, hv,
      read_eq_some w m _ k j i hm hd hk (by omega) (by omega),
      read_eq_some w m _ k j (i - 1) hm hd hk (by omega) (by omega),
      read_eq_some w m _ k j (i + 1) hm hd hk (by omega) (by omega),
      read_eq_some w m _ k (j - 1) i hm hd hk (by omega) (by omega),
      read_eq_some w m _ k (j + 1) i hm hd hk (by omega) (by omega)]
  · obtain ⟨v1, h1⟩ := speed_isSome ext w m k j i hm hvx hvy hk (by omega) (by omega)
    obtain ⟨v2, h2⟩ := speed_isSome ext w m k j (i - 1) hm hvx hvy hk (by omega) (by omega)
    obtain ⟨v3, h3⟩ := speed_isSome ext w m k j (i + 1) hm hvx hvy hk (by omega) (by omega)
    obtain ⟨v4, h4⟩ := speed_isSome ext w m k (j - 1) i hm hvx hvy hk (by omega) (by omega)
    obtain ⟨v5, h5⟩ := speed_isSome ext w m k (j + 1) i hm hvx hvy hk (by omega) (by omega)
    simp [sample3, hv, h1, h2, h3, h4, h5]

theorem sample5_isSome (ext : External) (variable_ : Int) (w : DvceArray5D) (m k j i : Int)
    (hvar : variable_ = 1 ∨ variable_ = 2)
    (hm : 0 ≤ m ∧ m < w.nmb) (hd : 0 ≤ ext.IDN ∧ ext.IDN < w.nvar)
    (hvx : 0 ≤ ext.IVX ∧ ext.IVX < w.nvar) (hvy : 0 ≤ ext.IVY ∧ ext.IVY < w.nvar)
    (hk : 0 ≤ k ∧ k < w.nk) (hj : 0 ≤ j - 2 ∧ j + 2 < w.nj) (hi : 0 ≤ i - 2 ∧ i + 2 < w.ni) :
    (sample5 ext variable_ w m k j i).isSome := by
  rcases hvar with hv | hv
  · simp [sample5, hv,
      read_eq_some w m _ k j i hm hd hk (by omega) (by omega),
      read_eq_some w m _ k j (i - 2) hm hd hk (by omega) (by omega),
      read_eq_some w m _ k j (i - 1) hm hd hk (by omega) (by omega),
      read_eq_some w m _ k j (i + 1) hm hd hk (by omega) (by omega),
      read_eq_some w m _ k j (i + 2) hm hd hk (by omega) (by omega),
      read_eq_some w m _ k (j - 2) i hm hd hk (by omega) (by omega),
      read_eq_some w m _ k (j - 1) i hm hd hk (by omega) (by omega),
      read_eq_some w m _ k (j + 1) i hm hd hk (by omega) (by omega),
      read_eq_some w m _ k (j + 2) i hm hd hk (by omega) (by omega)]
  · obtain ⟨v1, h1⟩ := speed_isSome ext w m k j i hm hvx hvy hk (by omega) (by omega)
    obtain ⟨v2, h2⟩ := speed_isSome ext w m k j (i - 2) hm hvx hvy hk (by omega) (by omega)
    obtain ⟨v3, h3⟩ := speed_isSome ext w m k j (i - 1) hm hvx hvy hk (by omega) (by omega)
    obtain ⟨v4, h4⟩ := speed_isSome ext w m k j (i + 1) hm hvx hvy hk (by omega) (by omega)
    obtain ⟨v5, h5⟩ := speed_isSome ext w m k j (i + 2) hm hvx hvy hk (by omega) (by omega)
    obtain ⟨v6, h6⟩ := speed_isSome ext w m k (j - 2) i hm hvx hvy hk (by omega) (by omega)
    obtain ⟨v7, h7⟩ := speed_isSome ext w m k (j - 1) i hm hvx hvy hk (by omega) (by omega)
    obtain ⟨v8, h8⟩ := speed_isSome ext w m k (j + 1) i hm hvx hvy hk (by omega) (by omega)
    obtain ⟨v9, h9⟩ := speed_isSome ext w m k (j + 2) i hm hvx hvy hk (by omega) (by omega)
    simp [sample5, hv, h1, h2, h3, h4, h5, h6, h7, h8, h9]

theorem foldlM_range_isSome {β : Type} (g : β → Nat → Option β) (n : Nat)
    (hg : ∀ idx, idx < n → ∀ b, (g b idx).isSome) (b : β) :
    ((List.range n).foldlM g b).isSome := by
  induction n with
  | zero => simp
  | succ n ih =>
    rw [List.range_succ, List.foldlM_append]
    obtain ⟨b1, hb1⟩ := Option.isSome_iff_exists.mp (ih (fun idx h => hg idx (by omega)))
    rw [hb1]
    simpa using hg n (by omega) b1

/-- Under the standing assumptions and the halo precondition the reduction of every
block of the pack is defined. -/
theorem blockReduce_isSome_of_halo (ext : External) (pmbp : MeshBlockPack) (w0 : DvceArray5D)
    (m : Nat)
    (hst : pmbp.pmr.stencil_ = 3 ∨ pmbp.pmr.stencil_ = 5)
    (hvar : pmbp.pmr.variable_ = 1 ∨ pmbp.pmr.variable_ = 2)
    (hwf : InteriorInArray ext pmbp w0)
    (hhalo : HaloWidth ((pmbp.pmr.stencil_ - 1) / 2) pmbp w0)
    (hm : (m : Int) < pmbp.nmb_thispack) :
    (blockReduce ext pmbp w0 m).isSome := by
  obtain ⟨h1, h2, _, e1, e2, e3, hks, hke, hnmb, hd, hvx, hvy⟩ := hwf
  unfold blockReduce
  apply foldlM_range_isSome
  intro idx hidx acc
  have hlt : (idx : Int) < pmbp.mb_indcs.nx3 * pmbp.mb_indcs.nx2 * pmbp.mb_indcs.nx1 := by
    omega
  have hb := decodeIdx_mem_box pmbp.mb_indcs.nx1 pmbp.mb_indcs.nx2 pmbp.mb_indcs.nx3
    pmbp.mb_indcs.is pmbp.mb_indcs.js pmbp.mb_indcs.ks idx h1 h2 (by omega) hlt
  rcases hst with hst | hst
  · rw [hst] at hhalo
    obtain ⟨a1, a2, a3, a4⟩ := hhalo
    norm_num at a1 a2 a3 a4
    have key : ∀ kji : Int × Int × Int,
        (pmbp.mb_indcs.ks ≤ kji.1 ∧ kji.1 < pmbp.mb_indcs.ks + pmbp.mb_indcs.nx3)
        ∧ (pmbp.mb_indcs.js ≤ kji.2.1 ∧ kji.2.1 < pmbp.mb_indcs.js + pmbp.mb_indcs.nx2)
        ∧ (pmbp.mb_indcs.is ≤ kji.2.2 ∧ kji.2.2 < pmbp.mb_indcs.is + pmbp.mb_indcs.nx1) →
        (sample3 ext pmbp.pmr.variable_ w0 m kji.1 kji.2.1 kji.2.2).isSome :=
      fun kji hkji => sample3_isSome ext pmbp.pmr.variable_ w0 m kji.1 kji.2.1 kji.2.2 hvar
        ⟨by omega, by omega⟩ hd hvx hvy
        ⟨by omega, by omega⟩ ⟨by omega, by omega⟩ ⟨by omega, by omega⟩
    obtain ⟨u, hu⟩ := Option.isSome_iff_exists.mp (key _ hb)
    rw [cellKernel_stencil3 ext pmbp w0 m idx acc u.1 u.2 hst hu]
    rfl
  · rw [hst] at hhalo
    obtain ⟨a1, a2, a3, a4⟩ := hhalo
    norm_num at a1 a2 a3 a4
    have key : ∀ kji : Int × Int × Int,
        (pmbp.mb_indcs.ks ≤ kji.1 ∧ kji.1 < pmbp.mb_indcs.ks + pmbp.mb_indcs.nx3)
        ∧ (pmbp.mb_indcs.js ≤ kji.2.1 ∧ kji.2.1 < pmbp.mb_indcs.js + pmbp.mb_indcs.nx2)
        ∧ (pmbp.mb_indcs.is ≤ kji.2.2 ∧ kji.2.2 < pmbp.mb_indcs.is + pmbp.mb_indcs.nx1) →
        (sample5 ext pmbp.pmr.variable_ w0 m kji.1 kji.2.1 kji.2.2).isSome :=
      fun kji hkji => sample5_isSome ext pmbp.pmr.variable_ w0 m kji.1 kji.2.1 kji.2.2 hvar
        ⟨by omega, by omega⟩ hd hvx hvy
        ⟨by omega, by omega⟩ ⟨by omega, by omega⟩ ⟨by omega, by omega⟩
    obtain ⟨u, hu⟩ := Option.isSome_iff_exists.mp (key _ hb)
    rw [cellKernel_stencil5 ext pmbp w0 m idx acc u.1 u.2 hst hu]
    rfl

/-- C14. Halo precondition. For order 3 or 5, under the standing assumptions of the data
model (`InteriorInArray`), if the array has `(order - 1) / 2` cells beyond the interior
range on both sides in x and in y, then for every block of the pack, every flattened index
below `nx1 * nx2 * nx3`, every variable index of the array and every offset `d` with
`-(order - 1) / 2 ≤ d ≤ (order - 1) / 2`, the reads `w0(m, n, k, j, i + d)` and
`w0(m, n, k, j + d, i)` at the decoded cell are inside the array; and with the variable
selector 1 or 2 the whole call is defined: no read takes the out-of-bounds branch. -/
theorem halo_reads_in_bounds (ext : External) (pmbp : MeshBlockPack) (w0 : DvceArray5D)
    (flags : RefineFlags)
    (hw : selectW0 pmbp = some w0)
    (hst : pmbp.pmr.stencil_ = 3 ∨ pmbp.pmr.stencil_ = 5)
    (hwf : InteriorInArray ext pmbp w0)
    (hhalo : HaloWidth ((pmbp.pmr.stencil_ - 1) / 2) pmbp w0) :
    (∀ (m idx : Nat) (n d : Int),
      (m : Int) < pmbp.nmb_thispack →
      (idx : Int) < pmbp.mb_indcs.nx1 * pmbp.mb_indcs.nx2 * pmbp.mb_indcs.nx3 →
      0 ≤ n → n < w0.nvar →
      -((pmbp.pmr.stencil_ - 1) / 2) ≤ d → d ≤ (pmbp.pmr.stencil_ - 1) / 2 →
      (w0.read m n
          (decodeIdx (pmbp.mb_indcs.nx2 * pmbp.mb_indcs.nx1) pmbp.mb_indcs.nx1
            pmbp.mb_indcs.is pmbp.mb_indcs.js pmbp.mb_indcs.ks idx).1
          (decodeIdx (pmbp.mb_indcs.nx2 * pmbp.mb_indcs.nx1) pmbp.mb_indcs.nx1
            pmbp.mb_indcs.is pmbp.mb_indcs.js pmbp.mb_indcs.ks idx).2.1
          ((decodeIdx (pmbp.mb_indcs.nx2 * pmbp.mb_indcs.nx1) pmbp.mb_indcs.nx1
            pmbp.mb_indcs.is pmbp.mb_indcs.js pmbp.mb_indcs.ks idx).2.2 + d)).isSome
      ∧ (w0.read m n
          (decodeIdx (pmbp.mb_indcs.nx2 * pmbp.mb_indcs.nx1) pmbp.mb_indcs.nx1
            pmbp.mb_indcs.is pmbp.mb_indcs.js pmbp.mb_indcs.ks idx).1
          ((decodeIdx (pmbp.mb_indcs.nx2 * pmbp.mb_indcs.nx1) pmbp.mb_indcs.nx1
            pmbp.mb_indcs.is pmbp.mb_indcs.js pmbp.mb_indcs.ks idx).2.1 + d)
          (decodeIdx (pmbp.mb_indcs.nx2 * pmbp.mb_indcs.nx1) pmbp.mb_indcs.nx1
            pmbp.mb_indcs.is pmbp.mb_indcs.js pmbp.mb_indcs.ks idx).2.2).isSome)
    ∧ (pmbp.pmr.variable_ = 1 ∨ pmbp.pmr.variable_ = 2 →
        (RefinementCondition ext pmbp flags).isSome) := by
  constructor
  · intro m idx n d hm hidx hn0 hn1 hd0 hd1
    obtain ⟨h1, h2, _, e1, e2, e3, hks, hke, hnmb, _, _, _⟩ := hwf
    have hlt : (idx : Int) < pmbp.mb_indcs.nx3 * pmbp.mb_indcs.nx2 * pmbp.mb_indcs.nx1 := by
      have : pmbp.mb_indcs.nx3 * pmbp.mb_indcs.nx2 * pmbp.mb_indcs.nx1
          = pmbp.mb_indcs.nx1 * pmbp.mb_indcs.nx2 * pmbp.mb_indcs.nx3 := by ring
      omega
    have hb := decodeIdx_mem_box pmbp.mb_indcs.nx1 pmbp.mb_indcs.nx2 pmbp.mb_indcs.nx3
      pmbp.mb_indcs.is pmbp.mb_indcs.js pmbp.mb_indcs.ks idx h1 h2 (by omega) hlt
    obtain ⟨a1, a2, a3, a4⟩ := hhalo
    rcases hst with hst | hst
    · rw [hst] at a1 a2 a3 a4 hd0 hd1
      norm_num at a1 a2 a3 a4 hd0 hd1
      constructor
      · rw [read_eq_some w0 m n _ _ _ ⟨by omega, by omega⟩ ⟨hn0, hn1⟩ ⟨by omega, by omega⟩
          ⟨by omega, by omega⟩ ⟨by omega, by omega⟩]
        rfl
      · rw [read_eq_some w0 m n _ _ _ ⟨by omega, by omega⟩ ⟨hn0, hn1⟩ ⟨by omega, by omega⟩
          ⟨by omega, by omega⟩ ⟨by omega, by omega⟩]
        rfl
    · rw [hst] at a1 a2 a3 a4 hd0 hd1
      norm_num at a1 a2 a3 a4 hd0 hd1
      constructor
      · rw [read_eq_some w0 m n _ _ _ ⟨by omega, by omega⟩ ⟨hn0, hn1⟩ ⟨by omega, by omega⟩
          ⟨by omega, by omega⟩ ⟨by omega, by omega⟩]
        rfl
      · rw [read_eq_some w0 m n _ _ _ ⟨by omega, by omega⟩ ⟨hn0, hn1⟩ ⟨by omega, by omega⟩
          ⟨by omega, by omega⟩ ⟨by omega, by omega⟩]
        rfl
  · intro hvar
    obtain ⟨f, hf, _⟩ := foldlM_blockBody ext pmbp w0 flags pmbp.nmb_thispack.toNat
      (fun k hk => blockReduce_isSome_of_halo ext pmbp w0 k hst hvar hwf hhalo (by omega))
    simp only [RefinementCondition, hw, hf]
    rfl

theorem halo_reads_in_bounds_witness :
    (RefinementCondition extQ (singleCellPack 5 (1/2) 0 (fieldOfDensity spikeDensity))
      (fun _ => 0)).isSome :=
  (halo_reads_in_bounds extQ (singleCellPack 5 (1/2) 0 (fieldOfDensity spikeDensity))
    (fieldOfDensity spikeDensity) (fun _ => 0) rfl (Or.inr rfl)
    (by decide) (by decide)).2 (Or.inl rfl)

/-! ## The ordering of the two energies -/

theorem matVecLoop3_getD (ux uy : List ℚ) :
    matVecLoop 3 A3 ux uy
      = matVecLoop 3 A3 [ux.getD 0 0, ux.getD 1 0, ux.getD 2 0]
          [uy.getD 0 0, uy.getD 1 0, uy.getD 2 0] := by
  simp [matVecLoop, A3, entry, List.range_succ, List.replicate]

theorem matVecLoop5_getD (ux uy : List ℚ) :
    matVecLoop 5 A5 ux uy
      = matVecLoop 5 A5 [ux.getD 0 0, ux.getD 1 0, ux.getD 2 0, ux.getD 3 0, ux.getD 4 0]
          [uy.getD 0 0, uy.getD 1 0, uy.getD 2 0, uy.getD 3 0, uy.getD 4 0] := by
  simp [matVecLoop, A5, entry, List.range_succ, List.replicate]

theorem energy_order3 (c0 c1 c2 d0 d1 d2 : ℚ) :
    0 ≤ max (c2 * c2 / 5) (d2 * d2 / 5)
    ∧ max (c2 * c2 / 5) (d2 * d2 / 5)
        ≤ max (c0 * c0 + c1 * c1 / 3 + c2 * c2 / 5) (d0 * d0 + d1 * d1 / 3 + d2 * d2 / 5) := by
  have hc0 := mul_self_nonneg c0
  have hc1 := mul_self_nonneg c1
  have hc2 := mul_self_nonneg c2
  have hd0 := mul_self_nonneg d0
  have hd1 := mul_self_nonneg d1
  have hd2 := mul_self_nonneg d2
  constructor
  · exact le_max_of_le_left (by positivity)
  · exact max_le_max (by linarith) (by linarith)

theorem energy_order5 (c0 c1 c2 c3 c4 d0 d1 d2 d3 d4 : ℚ) :
    0 ≤ max (c4 * c4 / 9) (d4 * d4 / 9)
    ∧ max (c4 * c4 / 9) (d4 * d4 / 9)
        ≤ max (c0 * c0 + c1 * c1 / 3 + c2 * c2 / 5 + c3 * c3 / 7 + c4 * c4 / 9)
            (d0 * d0 + d1 * d1 / 3 + d2 * d2 / 5 + d3 * d3 / 7 + d4 * d4 / 9) := by
  have hc0 := mul_self_nonneg c0
  have hc1 := mul_self_nonneg c1
  have hc2 := mul_self_nonneg c2
  have hc3 := mul_self_nonneg c3
  have hc4 := mul_self_nonneg c4
  have hd0 := mul_self_nonneg d0
  have hd1 := mul_self_nonneg d1
  have hd2 := mul_self_nonneg d2
  have hd3 := mul_self_nonneg d3
  have hd4 := mul_self_nonneg d4
  constructor
  · exact le_max_of_le_left (by positivity)
  · exact max_le_max (by linarith) (by linarith)

/-- The pair of a cell in the order-3 branch: the top-mode energy is non-negative and at
most the total weighted energy. -/
theorem indicator3_bounds (ux uy : List ℚ) :
    0 ≤ (indicator3 ux uy).1 ∧ (indicator3 ux uy).1 ≤ (indicator3 ux uy).2 := by
  simp only [indicator3]
  rw [matVecLoop3_getD, matVecLoop3]
  simp only [kappaLoop3, fmax_eq_max, List.getD_cons_zero, List.getD_cons_succ]
  exact energy_order3 _ _ _ _ _ _

theorem indicator5_bounds (ux uy : List ℚ) :
    0 ≤ (indicator5 ux uy).1 ∧ (indicator5 ux uy).1 ≤ (indicator5 ux uy).2 := by
  simp only [indicator5]
  rw [matVecLoop5_getD, matVecLoop5]
  simp only [kappaLoop5, fmax_eq_max, List.getD_cons_zero, List.getD_cons_succ]
  exact energy_order5 _ _ _ _ _ _ _ _ _ _

theorem cellPair_bounds (ext : External) (pmbp : MeshBlockPack) (w0 : DvceArray5D)
    (m idx : Int) (p : ℚ × ℚ) (h : cellPair ext pmbp w0 m idx = some p) :
    0 ≤ p.1 ∧ p.1 ≤ p.2 := by
  unfold cellPair at h
  simp only [] at h
  split_ifs at h
  · obtain ⟨u, _, hu⟩ := Option.map_eq_some'.mp h
    rw [← hu]
    exact indicator3_bounds _ _
  · obtain ⟨u, _, hu⟩ := Option.map_eq_some'.mp h
    rw [← hu]
    exact indicator5_bounds _ _

theorem accumulate_bounds (acc p : ℚ × ℚ) (hacc : acc.1 ≤ acc.2)
    (hp : 0 ≤ p.1 ∧ p.1 ≤ p.2) :
    0 ≤ (accumulate acc p).1 ∧ (accumulate acc p).1 ≤ (accumulate acc p).2 := by
  rw [accumulate_eq_max]
  exact ⟨le_max_of_le_right hp.1, max_le_max hacc hp.2⟩

theorem foldlM_range_invariant {β : Type} (g : β → Nat → Option β) (I J : β → Prop)
    (hJI : ∀ b, J b → I b)
    (n : Nat)
    (step : ∀ idx, idx < n + 1 → ∀ b b1, I b → g b idx = some b1 → J b1)
    (b0 : β) (h0 : I b0) (r : β) (h : (List.range (n + 1)).foldlM g b0 = some r) : J r := by
  induction n generalizing r with
  | zero =>
    simp [List.range_succ] at h
    exact step 0 (by omega) b0 r h0 h
  | succ n ih =>
    rw [List.range_succ, List.foldlM_append] at h
    cases h1 : (List.range (n + 1)).foldlM g b0 with
    | none => simp [h1] at h
    | some b1 =>
      have hJ := ih (fun idx hidx => step idx (by omega)) b1 h1
      simp [h1] at h
      exact step (n + 1) (by omega) b1 r (hJI b1 hJ) h

/-- The reduced pair of a block with at least one interior cell. -/
theorem blockReduce_bounds (ext : External) (pmbp : MeshBlockPack) (w0 : DvceArray5D)
    (m : Int) (r : ℚ × ℚ)
    (hst : pmbp.pmr.stencil_ = 3 ∨ pmbp.pmr.stencil_ = 5)
    (hcells : 0 < pmbp.mb_indcs.nx3 * pmbp.mb_indcs.nx2 * pmbp.mb_indcs.nx1)
    (hr : blockReduce ext pmbp w0 m = some r) :
    0 ≤ r.1 ∧ r.1 ≤ r.2 := by
  unfold blockReduce at hr
  obtain ⟨n, hn⟩ : ∃ n, (pmbp.mb_indcs.nx3 * pmbp.mb_indcs.nx2 * pmbp.mb_indcs.nx1).toNat
      = n + 1 := Nat.exists_eq_succ_of_ne_zero (by omega)
  simp only [hn] at hr
  refine foldlM_range_invariant _ (fun b => b.1 ≤ b.2) (fun b => 0 ≤ b.1 ∧ b.1 ≤ b.2)
    (fun b hb => hb.2) n ?_ _ (le_refl _) r hr
  intro idx _ b b1 hb hstep
  rw [cellKernel_eq_cellPair ext pmbp w0 m _ _ hst] at hstep
  obtain ⟨p, hp, hb1⟩ := Option.map_eq_some'.mp hstep
  rw [← hb1]
  exact accumulate_bounds b p hb (cellPair_bounds ext pmbp w0 m _ p hp)

/-- C17. For order 3 and order 5 and a block with at least one interior cell, the
reduced pair `(cN, sum_cN)` of the block satisfies `0 ≤ cN ≤ sum_cN`. -/
theorem block_energy_ordering (ext : External) (pmbp : MeshBlockPack) (w0 : DvceArray5D)
    (m : Int) (r : ℚ × ℚ)
    (hst : pmbp.pmr.stencil_ = 3 ∨ pmbp.pmr.stencil_ = 5)
    (hcells : 0 < pmbp.mb_indcs.nx3 * pmbp.mb_indcs.nx2 * pmbp.mb_indcs.nx1)
    (hr : blockReduce ext pmbp w0 m = some r) :
    0 ≤ r.1 ∧ r.1 ≤ r.2 :=
  blockReduce_bounds ext pmbp w0 m r hst hcells hr

theorem block_energy_ordering_witness :
    blockReduce extQ (singleCellPack 3 (1/2) 0 (fieldOfDensity spikeDensity))
        (fieldOfDensity spikeDensity) 0 = some (0.45, 0.5125)
    ∧ (0 : ℚ) ≤ ((0.45, 0.5125) : ℚ × ℚ).1
    ∧ ((0.45, 0.5125) : ℚ × ℚ).1 ≤ ((0.45, 0.5125) : ℚ × ℚ).2 :=
  ⟨by decide!,
    block_energy_ordering extQ (singleCellPack 3 (1/2) 0 (fieldOfDensity spikeDensity))
      (fieldOfDensity spikeDensity) 0 (0.45, 0.5125) (Or.inl rfl) (by decide) (by decide!)⟩

/-! ## The two tests -/

theorem not_refineCondition (ext : External) (N alpha_refine_ cN sum_cN : ℚ)
    (h0 : 0 ≤ cN) (hle : cN ≤ sum_cN) (hthr : ext.pow N (2 * alpha_refine_) ≤ 1) :
    ¬ refineCondition ext N alpha_refine_ cN sum_cN := by
  unfold refineCondition
  have h : cN * ext.pow N (2 * alpha_refine_) ≤ cN * 1 := mul_le_mul_of_nonneg_left hthr h0
  intro hgt
  linarith

theorem thresholdTests_no_refine (ext : External) (N aR aC : ℚ) (mbs m : Int)
    (cN sum_cN : ℚ) (flags : RefineFlags) (g : Int)
    (h : ¬ refineCondition ext N aR cN sum_cN) :
    thresholdTests ext N aR aC mbs m cN sum_cN flags g = flags g
    ∨ thresholdTests ext N aR aC mbs m cN sum_cN flags g = -1 := by
  unfold refineCondition at h
  simp only [thresholdTests, h, if_false]
  split_ifs
  · by_cases hg : g = m + mbs
    · right; simp [Function.update, hg]
    · left; simp [Function.update, hg]
  · left; rfl

/-- C18. For order 3 and order 5, when `thresholdRefine ≤ 1` and the blocks have at
least one interior cell, the refine test `cN * thresholdRefine > sum_cN` is false on the
reduced pair of every block, for every field data; a defined call therefore writes
Refine (1) to no slot: every entry of the flag array is after the call its prior value
or Coarsen (-1). -/
theorem no_refine_below_threshold_one (ext : External) (pmbp : MeshBlockPack)
    (flags f : RefineFlags)
    (hthr : (pmbp.pmr.stencil_ = 3 ∧ ext.pow 2 (2 * pmbp.pmr.alpha_refine_) ≤ 1)
      ∨ (pmbp.pmr.stencil_ = 5 ∧ ext.pow 4 (2 * pmbp.pmr.alpha_refine_) ≤ 1))
    (hcells : 0 < pmbp.mb_indcs.nx3 * pmbp.mb_indcs.nx2 * pmbp.mb_indcs.nx1)
    (hcall : RefinementCondition ext pmbp flags = some f) :
    (∀ (w0 : DvceArray5D) (m : Int) (r : ℚ × ℚ) (N : ℚ), selectW0 pmbp = some w0 →
        blockReduce ext pmbp w0 m = some r →
        ext.pow N (2 * pmbp.pmr.alpha_refine_) ≤ 1 →
        ¬ refineCondition ext N pmbp.pmr.alpha_refine_ r.1 r.2)
    ∧ (∀ g : Int, f g = flags g ∨ f g = -1) := by
  have hst : pmbp.pmr.stencil_ = 3 ∨ pmbp.pmr.stencil_ = 5 := by
    rcases hthr with ⟨h, _⟩ | ⟨h, _⟩
    · exact Or.inl h
    · exact Or.inr h
  have hno : ∀ (w0 : DvceArray5D) (m : Int) (r : ℚ × ℚ) (N : ℚ),
      blockReduce ext pmbp w0 m = some r →
      ext.pow N (2 * pmbp.pmr.alpha_refine_) ≤ 1 →
      ¬ refineCondition ext N pmbp.pmr.alpha_refine_ r.1 r.2 := by
    intro w0 m r N hr hN
    obtain ⟨h0, hle⟩ := blockReduce_bounds ext pmbp w0 m r hst hcells hr
    exact not_refineCondition ext N _ r.1 r.2 h0 hle hN
  refine ⟨fun w0 m r N _ hr hN => hno w0 m r N hr hN, ?_⟩
  intro g
  cases hw : selectW0 pmbp with
  | none =>
    simp only [RefinementCondition, hw, Option.some.injEq] at hcall
    left; rw [hcall]
  | some w0 =>
    obtain ⟨hslot, hframe⟩ := RefinementCondition_some ext pmbp w0 flags f hw hcall
    by_cases hg : ∃ m : Nat, (m : Int) < pmbp.nmb_thispack ∧ g = m + pmbp.mbs
    · obtain ⟨m, hm, rfl⟩ := hg
      obtain ⟨r, hr, hfr⟩ := hslot m hm
      rw [hfr]
      rcases hthr with ⟨h3, hle⟩ | ⟨h5, hle⟩
      · simp only [decideFlags, h3]
        norm_num
        exact thresholdTests_no_refine ext 2 _ _ _ _ _ _ flags _ (hno w0 m r 2 hr hle)
      · simp only [decideFlags, h5]
        norm_num
        exact thresholdTests_no_refine ext 4 _ _ _ _ _ _ flags _ (hno w0 m r 4 hr hle)
    · left
      exact hframe g (fun m hm hgm => hg ⟨m, hm, hgm⟩)

theorem no_refine_below_threshold_one_witness :
    ∃ f, RefinementCondition extQ (singleCellPack 3 0 0 (fieldOfDensity spikeDensity))
          (fun _ => 0) = some f
      ∧ ∀ g : Int, f g = (fun _ => 0 : RefineFlags) g ∨ f g = -1 := by
  have hs : (RefinementCondition extQ
      (singleCellPack 3 0 0 (fieldOfDensity spikeDensity)) (fun _ => 0)).isSome
        = true := by decide!
  obtain ⟨f, hf⟩ := Option.isSome_iff_exists.mp hs
  exact ⟨f, hf, (no_refine_below_threshold_one extQ _ (fun _ => 0) f
    (Or.inl ⟨rfl, by decide!⟩) (by decide) hf).2⟩

/-- C19. For every `cN ≥ 0` and every `sum_cN`, when
`thresholdCoarsen ≥ thresholdRefine` the refine test and the coarsen test are never both
true; the two tests of lines 406-411 then leave 1 in the slot whenever the refine test
holds, so the coarsen-overwrites-refine path is not reached. -/
theorem conditions_exclusive (ext : External) (N alpha_refine_ alpha_coarsen_ cN sum_cN : ℚ)
    (hcN : 0 ≤ cN)
    (hthr : ext.pow N (2 * alpha_refine_) ≤ ext.pow N (2 * alpha_coarsen_)) :
    ¬ (refineCondition ext N alpha_refine_ cN sum_cN
        ∧ coarsenCondition ext N alpha_coarsen_ cN sum_cN)
    ∧ ∀ (mbs m : Int) (flags : RefineFlags),
        thresholdTests ext N alpha_refine_ alpha_coarsen_ mbs m cN sum_cN flags (m + mbs)
          = if refineCondition ext N alpha_refine_ cN sum_cN then 1
            else if coarsenCondition ext N alpha_coarsen_ cN sum_cN then -1
            else flags (m + mbs) := by
  have hmul : cN * ext.pow N (2 * alpha_refine_) ≤ cN * ext.pow N (2 * alpha_coarsen_) :=
    mul_le_mul_of_nonneg_left hthr hcN
  have hex : ¬ (refineCondition ext N alpha_refine_ cN sum_cN
      ∧ coarsenCondition ext N alpha_coarsen_ cN sum_cN) := by
    unfold refineCondition coarsenCondition
    rintro ⟨h1, h2⟩
    linarith
  refine ⟨hex, ?_⟩
  intro mbs m flags
  unfold refineCondition coarsenCondition at *
  simp only [thresholdTests]
  split_ifs <;> simp_all [Function.update]

theorem conditions_exclusive_witness :
    ¬ (refineCondition extQ 2 0 0.45 0.5125 ∧ coarsenCondition extQ 2 0.5 0.45 0.5125) :=
  (conditions_exclusive extQ 2 0 0.5 0.45 0.5125 (by norm_num) (by decide!)).1

/-- C20. Both tests can hold at once on reachable data: order 3, one block whose only
interior cell has the spike `[0, 1, 0]` in x and in y, `alphaRefine = 0.5` and
`alphaCoarsen = 0`, so `thresholdRefine = 2` and `thresholdCoarsen = 1` with
`0 < thresholdCoarsen < thresholdRefine`. The reduced pair is (0.45, 0.5125), the refine
test and the coarsen test are both true, and the slot ends as Coarsen (-1). -/
theorem both_conditions_on_spike :
    0 < extQ.pow 2 (2 * 0)
    ∧ extQ.pow 2 (2 * 0) < extQ.pow 2 (2 * 0.5)
    ∧ extQ.pow 2 (2 * 0.5) = 2
    ∧ extQ.pow 2 (2 * 0) = 1
    ∧ blockReduce extQ (singleCellPack 3 0.5 0 (fieldOfDensity spikeDensity))
        (fieldOfDensity spikeDensity) 0 = some (0.45, 0.5125)
    ∧ refineCondition extQ 2 0.5 0.45 0.5125
    ∧ coarsenCondition extQ 2 0 0.45 0.5125
    ∧ (RefinementCondition extQ (singleCellPack 3 0.5 0 (fieldOfDensity spikeDensity))
        (fun _ => 1)).map (fun f => f 0) = some (-1) := by
  refine ⟨by decide!, by decide!, by decide!, by decide!, by decide!, by decide!,
    by decide!, by decide!⟩

/-! ## Reversal of the stencil -/

/-- Order 3: reversing the stencils keeps modes 0 and 2 and negates mode 1. -/
theorem matVecLoop3_reverse (a b c d e f : ℚ) :
    matVecLoop 3 A3 [a, b, c].reverse [d, e, f].reverse
      = ([(matVecLoop 3 A3 [a, b, c] [d, e, f]).1.getD 0 0,
          -(matVecLoop 3 A3 [a, b, c] [d, e, f]).1.getD 1 0,
          (matVecLoop 3 A3 [a, b, c] [d, e, f]).1.getD 2 0],
         [(matVecLoop 3 A3 [a, b, c] [d, e, f]).2.getD 0 0,
          -(matVecLoop 3 A3 [a, b, c] [d, e, f]).2.getD 1 0,
          (matVecLoop 3 A3 [a, b, c] [d, e, f]).2.getD 2 0]) := by
  simp only [List.reverse_cons, List.reverse_nil, List.nil_append, List.cons_append,
    matVecLoop3, List.getD_cons_zero, List.getD_cons_succ, Prod.mk.injEq, List.cons.injEq,
    and_true]
  refine ⟨⟨?_, ?_, ?_⟩, ⟨?_, ?_, ?_⟩⟩ <;> ring

/-- Order 3: the energies of a direction are the same for a stencil and its reversal. -/
theorem indicator3_reverse (a b c d e f : ℚ) :
    kappaLoop 3 (matVecLoop 3 A3 [a, b, c].reverse [d, e, f].reverse).1
        (matVecLoop 3 A3 [a, b, c].reverse [d, e, f].reverse).2
      = kappaLoop 3 (matVecLoop 3 A3 [a, b, c] [d, e, f]).1
          (matVecLoop 3 A3 [a, b, c] [d, e, f]).2
    ∧ indicator3 [a, b, c].reverse [d, e, f].reverse = indicator3 [a, b, c] [d, e, f] := by
  simp only [indicator3, List.reverse_cons, List.reverse_nil, List.nil_append,
    List.cons_append, matVecLoop3, kappaLoop3, List.getD_cons_zero, List.getD_cons_succ]
  refine ⟨?_, ?_⟩
  · exact Prod.ext (by ring) (by ring)
  · refine Prod.ext ?_ ?_
    · show fmax _ _ = fmax _ _
      congr 1 <;> ring
    · show fmax _ _ = fmax _ _
      congr 1 <;> ring

/-- Order 5: reversing the stencil negates modes 1 and 3 and keeps modes 2 and 4; mode 0
changes by `(275/115 - 275/1152)` times the difference of the two end values, the entry
`A[0][0]` being `275/115` where its mirror entry `A[0][4]` is `275/1152`. -/
theorem matVecLoop5_reverse (a b c d e : ℚ) :
    (matVecLoop 5 A5 [a, b, c, d, e].reverse [a, b, c, d, e].reverse).1
      = [(matVecLoop 5 A5 [a, b, c, d, e] [a, b, c, d, e]).1.getD 0 0
            - (275/115 - 275/1152) * (a - e),
          -(matVecLoop 5 A5 [a, b, c, d, e] [a, b, c, d, e]).1.getD 1 0,
          (matVecLoop 5 A5 [a, b, c, d, e] [a, b, c, d, e]).1.getD 2 0,
          -(matVecLoop 5 A5 [a, b, c, d, e] [a, b, c, d, e]).1.getD 3 0,
          (matVecLoop 5 A5 [a, b, c, d, e] [a, b, c, d, e]).1.getD 4 0] := by
  simp only [List.reverse_cons, List.reverse_nil, List.nil_append, List.cons_append,
    matVecLoop5, List.getD_cons_zero, List.getD_cons_succ, List.cons.injEq, and_true]
  refine ⟨?_, ?_, ?_, ?_, ?_⟩ <;> ring

/-- C21, at order 5 and the stencil `[1, 0, 0, 0, 0]`. The x-slot holds the stencil and
the y-slot its reversal `[0, 0, 0, 0, 1]`: the odd modes are negated and the modes 2 and 4
are equal, but mode 0 is `275/115` for the stencil and `275/1152` for its reversal, and
the sums of weighted energies of the two directions differ. -/
theorem order5_reversal_changes_mode0 :
    matVecLoop 5 A5 [1, 0, 0, 0, 0] [1, 0, 0, 0, 0].reverse
      = ([275/115, -55/96, 1525/2016, -25/48, 125/336],
         [275/1152, 55/96, 1525/2016, 25/48, 125/336])
    ∧ (matVecLoop 5 A5 [1, 0, 0, 0, 0] [1, 0, 0, 0, 0].reverse).1.getD 0 0
        ≠ (matVecLoop 5 A5 [1, 0, 0, 0, 0] [1, 0, 0, 0, 0].reverse).2.getD 0 0
    ∧ (kappaLoop 5 (matVecLoop 5 A5 [1, 0, 0, 0, 0] [1, 0, 0, 0, 0].reverse).1
        (matVecLoop 5 A5 [1, 0, 0, 0, 0] [1, 0, 0, 0, 0].reverse).2).1
        ≠ (kappaLoop 5 (matVecLoop 5 A5 [1, 0, 0, 0, 0] [1, 0, 0, 0, 0].reverse).1
            (matVecLoop 5 A5 [1, 0, 0, 0, 0] [1, 0, 0, 0, 0].reverse).2).2 := by
  have h : matVecLoop 5 A5 [1, 0, 0, 0, 0] [1, 0, 0, 0, 0].reverse
      = ([275/115, -55/96, 1525/2016, -25/48, 125/336],
         [275/1152, 55/96, 1525/2016, 25/48, 125/336]) := by
    simp only [List.reverse_cons, List.reverse_nil, List.nil_append, List.cons_append,
      matVecLoop5]
    norm_num
  rw [h]
  refine ⟨rfl, ?_, ?_⟩
  · norm_num
  · rw [kappaLoop5]
    norm_num

/-! ## Scaling of the field -/

theorem read_scaleField (s : ℚ) (w : DvceArray5D) (m n k j i : Int) :
    (scaleField s w).read m n k j i = (w.read m n k j i).map (fun v => s * v) := by
  unfold DvceArray5D.read scaleField
  simp only []
  split_ifs <;> rfl

theorem sample3_scaleField (ext : External) (s : ℚ) (w : DvceArray5D) (m k j i : Int) :
    sample3 ext 1 (scaleField s w) m k j i
      = (sample3 ext 1 w m k j i).map
          (fun u => (u.1.map (fun v => s * v), u.2.map (fun v => s * v))) := by
  simp only [sample3, read_scaleField]
  cases w.read m ext.IDN k j i <;> cases w.read m ext.IDN k j (i - 1)
    <;> cases w.read m ext.IDN k j (i + 1) <;> cases w.read m ext.IDN k (j - 1) i
    <;> cases w.read m ext.IDN k (j + 1) i <;> simp

theorem sample5_scaleField (ext : External) (s : ℚ) (w : DvceArray5D) (m k j i : Int) :
    sample5 ext 1 (scaleField s w) m k j i
      = (sample5 ext 1 w m k j i).map
          (fun u => (u.1.map (fun v => s * v), u.2.map (fun v => s * v))) := by
  unfold sample5
  rw [read_scaleField, read_scaleField, read_scaleField, read_scaleField, read_scaleField,
    read_scaleField, read_scaleField, read_scaleField, read_scaleField]
  cases w.read m ext.IDN k j i with
  | none => rfl
  | some v0 =>
  cases w.read m ext.IDN k j (i - 2) with
  | none => rfl
  | some v1 =>
  cases w.read m ext.IDN k j (i - 1) with
  | none => rfl
  | some v2 =>
  cases w.read m ext.IDN k j (i + 1) with
  | none => rfl
  | some v3 =>
  cases w.read m ext.IDN k j (i + 2) with
  | none => rfl
  | some v4 =>
  cases w.read m ext.IDN k (j - 2) i with
  | none => rfl
  | some v5 =>
  cases w.read m ext.IDN k (j - 1) i with
  | none => rfl
  | some v6 =>
  cases w.read m ext.IDN k (j + 1) i with
  | none => rfl
  | some v7 =>
  cases w.read m ext.IDN k (j + 2) i with
  | none => rfl
  | some v8 => rfl

theorem getD_map_mul (s : ℚ) (l : List ℚ) (n : Nat) :
    (l.map (fun v => s * v)).getD n 0 = s * l.getD n 0 := by
  have h := List.getD_map (l := l) (d := (0 : ℚ)) (n := n) (fun v => s * v)
  simpa using h

theorem scale_max (s x y : ℚ) : max (s ^ 2 * x) (s ^ 2 * y) = s ^ 2 * max x y :=
  (mul_max_of_nonneg x y (sq_nonneg s)).symm

theorem indicator3_scale (s : ℚ) (ux uy : List ℚ) :
    indicator3 (ux.map (fun v => s * v)) (uy.map (fun v => s * v))
      = scalePair s (indicator3 ux uy) := by
  simp only [indicator3, scalePair]
  rw [matVecLoop3_getD, matVecLoop3_getD ux uy, matVecLoop3, matVecLoop3]
  simp only [kappaLoop3, fmax_eq_max, List.getD_cons_zero, List.getD_cons_succ,
    getD_map_mul, ← scale_max]
  refine Prod.ext ?_ ?_ <;> (simp only []; congr 1 <;> ring)

theorem indicator5_scale (s : ℚ) (ux uy : List ℚ) :
    indicator5 (ux.map (fun v => s * v)) (uy.map (fun v => s * v))
      = scalePair s (indicator5 ux uy) := by
  simp only [indicator5, scalePair]
  rw [matVecLoop5_getD, matVecLoop5_getD ux uy, matVecLoop5, matVecLoop5]
  simp only [kappaLoop5, fmax_eq_max, List.getD_cons_zero, List.getD_cons_succ,
    getD_map_mul, ← scale_max]
  refine Prod.ext ?_ ?_ <;> (simp only []; congr 1 <;> ring)

/-- The pair of a cell on the scaled field, for the density selector. -/
theorem cellPair_scaleField (ext : External) (pmbp : MeshBlockPack) (w0 : DvceArray5D)
    (s : ℚ) (m idx : Int) (hvar : pmbp.pmr.variable_ = 1) :
    cellPair ext pmbp (scaleField s w0) m idx
      = (cellPair ext pmbp w0 m idx).map (scalePair s) := by
  simp only [cellPair, hvar]
  split_ifs
  · rw [sample3_scaleField]
    cases sample3 ext 1 w0 m _ _ _ <;> simp [indicator3_scale]
  · rw [sample5_scaleField]
    cases sample5 ext 1 w0 m _ _ _ <;> simp [indicator5_scale]
  · rfl

theorem accumulate_scalePair (s : ℚ) (a p : ℚ × ℚ) :
    accumulate (scalePair s a) (scalePair s p) = scalePair s (accumulate a p) := by
  simp only [accumulate, scalePair, fmax_eq_max, scale_max]

theorem accumulate_maxIdentity_scalePair (s : ℚ) (p : ℚ × ℚ) (h1 : 0 ≤ p.1) (h2 : 0 ≤ p.2) :
    accumulate (maxIdentity, maxIdentity) (scalePair s p)
      = scalePair s (accumulate (maxIdentity, maxIdentity) p) := by
  simp only [accumulate, scalePair, fmax_maxIdentity h1, fmax_maxIdentity h2,
    fmax_maxIdentity (mul_nonneg (sq_nonneg s) h1), fmax_maxIdentity (mul_nonneg (sq_nonneg s) h2)]

theorem foldlM_scalePair (s : ℚ) (p : Nat → Option (ℚ × ℚ)) (l : List Nat) (a : ℚ × ℚ) :
    l.foldlM (fun acc idx => ((p idx).map (scalePair s)).map (accumulate acc)) (scalePair s a)
      = (l.foldlM (fun acc idx => (p idx).map (accumulate acc)) a).map (scalePair s) := by
  induction l generalizing a with
  | nil => rfl
  | cons x l ih =>
    simp only [List.foldlM_cons]
    cases p x with
    | none => rfl
    | some q =>
      simp only [Option.map_some', Option.some_bind, accumulate_scalePair]
      exact ih _

theorem foldlM_scalePair_first (s : ℚ) (p : Nat → Option (ℚ × ℚ)) (l : List Nat)
    (hl : l ≠ []) (hp : ∀ idx q, p idx = some q → 0 ≤ q.1 ∧ 0 ≤ q.2) :
    l.foldlM (fun acc idx => ((p idx).map (scalePair s)).map (accumulate acc))
        (maxIdentity, maxIdentity)
      = (l.foldlM (fun acc idx => (p idx).map (accumulate acc))
          (maxIdentity, maxIdentity)).map (scalePair s) := by
  cases l with
  | nil => exact absurd rfl hl
  | cons x l =>
    simp only [List.foldlM_cons]
    cases hx : p x with
    | none => rfl
    | some q =>
      obtain ⟨h1, h2⟩ := hp x q hx
      simp only [Option.map_some', Option.some_bind,
        accumulate_maxIdentity_scalePair s q h1 h2]
      exact foldlM_scalePair s p l _

/-- The reduced pair of a block with at least one interior cell on the scaled field. -/
theorem blockReduce_scaleField (ext : External) (pmbp : MeshBlockPack) (w0 : DvceArray5D)
    (s : ℚ) (m : Int) (hvar : pmbp.pmr.variable_ = 1)
    (hst : pmbp.pmr.stencil_ = 3 ∨ pmbp.pmr.stencil_ = 5)
    (hcells : 0 < pmbp.mb_indcs.nx3 * pmbp.mb_indcs.nx2 * pmbp.mb_indcs.nx1) :
    blockReduce ext pmbp (scaleField s w0) m
      = (blockReduce ext pmbp w0 m).map (scalePair s) := by
  unfold blockReduce
  simp only [cellKernel_eq_cellPair ext pmbp _ m _ _ hst,
    cellPair_scaleField ext pmbp w0 s m _ hvar]
  apply foldlM_scalePair_first s (fun idx : Nat => cellPair ext pmbp w0 m idx)
  · intro h
    have := List.range_eq_nil.mp h
    omega
  · intro idx q hq
    have hb := cellPair_bounds ext pmbp w0 m idx q hq
    exact ⟨hb.1, le_trans hb.1 hb.2⟩

theorem refineCondition_scale (ext : External) (s : ℚ) (hs : s ≠ 0)
    (N alpha_refine_ cN sum_cN : ℚ) :
    refineCondition ext N alpha_refine_ (s ^ 2 * cN) (s ^ 2 * sum_cN)
      ↔ refineCondition ext N alpha_refine_ cN sum_cN := by
  have hs2 : 0 < s ^ 2 := by positivity
  unfold refineCondition
  rw [mul_assoc]
  exact mul_lt_mul_left hs2

theorem coarsenCondition_scale (ext : External) (s : ℚ) (hs : s ≠ 0)
    (N alpha_coarsen_ cN sum_cN : ℚ) :
    coarsenCondition ext N alpha_coarsen_ (s ^ 2 * cN) (s ^ 2 * sum_cN)
      ↔ coarsenCondition ext N alpha_coarsen_ cN sum_cN := by
  have hs2 : 0 < s ^ 2 := by positivity
  unfold coarsenCondition
  rw [mul_assoc]
  exact mul_lt_mul_left hs2

theorem decideFlags_scale (ext : External) (stencil_ : Int) (aR aC : ℚ) (mbs m : Int)
    (s : ℚ) (hs : s ≠ 0) (cN sum_cN : ℚ) (flags : RefineFlags) :
    decideFlags ext stencil_ aR aC mbs m (s ^ 2 * cN) (s ^ 2 * sum_cN) flags
      = decideFlags ext stencil_ aR aC mbs m cN sum_cN flags := by
  have r2 := refineCondition_scale ext s hs 2 aR cN sum_cN
  have c2 := coarsenCondition_scale ext s hs 2 aC cN sum_cN
  have r4 := refineCondition_scale ext s hs 4 aR cN sum_cN
  have c4 := coarsenCondition_scale ext s hs 4 aC cN sum_cN
  unfold refineCondition at r2 r4
  unfold coarsenCondition at c2 c4
  simp only [decideFlags, thresholdTests, r2, c2, r4, c4]

/-- The body of the outer lambda gives the same flags on the scaled field. -/
theorem blockBody_scaleField (ext : External) (pmbp : MeshBlockPack) (w0 : DvceArray5D)
    (s : ℚ) (hs : s ≠ 0) (hvar : pmbp.pmr.variable_ = 1) (flags : RefineFlags) (m : Int) :
    blockBody ext pmbp (scaleField s w0) flags m = blockBody ext pmbp w0 flags m := by
  by_cases hst : pmbp.pmr.stencil_ = 3 ∨ pmbp.pmr.stencil_ = 5
  · by_cases hcells : 0 < pmbp.mb_indcs.nx3 * pmbp.mb_indcs.nx2 * pmbp.mb_indcs.nx1
    · simp only [blockBody, blockReduce_scaleField ext pmbp w0 s m hvar hst hcells]
      cases blockReduce ext pmbp w0 m with
      | none => rfl
      | some r => simp [scalePair, decideFlags_scale _ _ _ _ _ _ s hs]
    · have h0 : (pmbp.mb_indcs.nx3 * pmbp.mb_indcs.nx2 * pmbp.mb_indcs.nx1).toNat = 0 := by
        omega
      simp only [blockBody, blockReduce, h0, List.range_zero, List.foldlM_nil]
  · have h3 : pmbp.pmr.stencil_ ≠ 3 := fun h => hst (Or.inl h)
    have h5 : pmbp.pmr.stencil_ ≠ 5 := fun h => hst (Or.inr h)
    have hr : ∀ w : DvceArray5D,
        blockReduce ext pmbp w m = some (maxIdentity, maxIdentity) := by
      intro w
      unfold blockReduce
      apply foldlM_const_some
      intro acc idx
      simp [cellKernel, h3, h5]
    simp only [blockBody, hr]

theorem selectW0_scalePack (s : ℚ) (pmbp : MeshBlockPack) :
    selectW0 (scalePack s pmbp) = (selectW0 pmbp).map (scaleField s) := by
  unfold selectW0 scalePack
  cases pmbp.phydro <;> cases pmbp.pmhd <;> rfl

/-- The whole call gives the same flags on the scaled pack. -/
theorem RefinementCondition_scalePack (ext : External) (pmbp : MeshBlockPack)
    (flags : RefineFlags) (s : ℚ) (hs : s ≠ 0) (hvar : pmbp.pmr.variable_ = 1) :
    RefinementCondition ext (scalePack s pmbp) flags
      = RefinementCondition ext pmbp flags := by
  unfold RefinementCondition
  rw [selectW0_scalePack]
  cases selectW0 pmbp with
  | none => rfl
  | some w0 =>
    show (List.range pmbp.nmb_thispack.toNat).foldlM
        (fun fl (m : Nat) => blockBody ext pmbp (scaleField s w0) fl (m : Int)) flags
      = (List.range pmbp.nmb_thispack.toNat).foldlM
        (fun fl (m : Nat) => blockBody ext pmbp w0 fl (m : Int)) flags
    simp only [blockBody_scaleField ext pmbp w0 s hs hvar]

/-- C22. For the density selector, every field data, every exponents and `std::pow`
(every thresholds), every prior flags and every scale factor `s` other than 0: on the
field multiplied by `s`, for order 3 and 5 the reduced pair of a block with at least one
interior cell is the pair of the unscaled field multiplied by `s^2`; the refine test and
the coarsen test have the same truth values on a pair and on the pair multiplied by
`s^2`; and the call returns the same flag array as on the unscaled field. -/
theorem scale_invariance (ext : External) (pmbp : MeshBlockPack) (flags : RefineFlags)
    (s : ℚ) (hs : s ≠ 0) (hvar : pmbp.pmr.variable_ = 1) :
    (∀ (w0 : DvceArray5D) (m : Int),
      (pmbp.pmr.stencil_ = 3 ∨ pmbp.pmr.stencil_ = 5) →
      0 < pmbp.mb_indcs.nx3 * pmbp.mb_indcs.nx2 * pmbp.mb_indcs.nx1 →
      blockReduce ext (scalePack s pmbp) (scaleField s w0) m
        = (blockReduce ext pmbp w0 m).map (scalePair s))
    ∧ (∀ N alpha_refine_ cN sum_cN : ℚ,
        refineCondition ext N alpha_refine_ (s ^ 2 * cN) (s ^ 2 * sum_cN)
          ↔ refineCondition ext N alpha_refine_ cN sum_cN)
    ∧ (∀ N alpha_coarsen_ cN sum_cN : ℚ,
        coarsenCondition ext N alpha_coarsen_ (s ^ 2 * cN) (s ^ 2 * sum_cN)
          ↔ coarsenCondition ext N alpha_coarsen_ cN sum_cN)
    ∧ RefinementCondition ext (scalePack s pmbp) flags
        = RefinementCondition ext pmbp flags :=
  ⟨fun w0 m hst hcells => blockReduce_scaleField ext pmbp w0 s m hvar hst hcells,
    refineCondition_scale ext s hs, coarsenCondition_scale ext s hs,
    RefinementCondition_scalePack ext pmbp flags s hs hvar⟩

theorem scale_invariance_witness :
    blockReduce extQ (scalePack 3 (singleCellPack 3 0.5 0.5 (fieldOfDensity spikeDensity)))
        (scaleField 3 (fieldOfDensity spikeDensity)) 0 = some (4.05, 4.6125)
    ∧ RefinementCondition extQ
        (scalePack 3 (singleCellPack 3 0.5 0.5 (fieldOfDensity spikeDensity))) (fun _ => 0)
      = RefinementCondition extQ (singleCellPack 3 0.5 0.5 (fieldOfDensity spikeDensity))
          (fun _ => 0) :=
  ⟨by decide!,
    (scale_invariance extQ (singleCellPack 3 0.5 0.5 (fieldOfDensity spikeDensity))
      (fun _ => 0) 3 (by norm_num) rfl).2.2.2⟩

end KH
